import Mathlib

/-!
# add_markers: the marker node of the home-service robot

A shallow embedding of `src/add_markers/src/add_markers.cpp`.

The node stores two poses (`odom`, `goal`), one visualization marker and two
mission flags.  Its two subscriber callbacks are embedded as pure functions on
the record of these members.  Coordinates are IEEE-754 numbers; the arithmetic
of `reach_target` (binary64 subtraction, conversion to binary32, binary32
multiplication, addition, `sqrtf`, `<`) is embedded operation by operation with
round-to-nearest-even, so that the predicate is the one the compiled code
evaluates when every operation is rounded to its own type (no fused
multiply-add, no excess precision).

Not embedded: the ROS transport (node handle, publisher, subscribers), logging,
and the passage of time in `ros::Duration(5.0).sleep()`.
-/

set_option maxRecDepth 20000

namespace AddMarkersNode

/-! ## IEEE-754 numbers -/

/-- An IEEE-754 datum: NaN, a signed infinity, or the signed dyadic number
`(-1)^neg * m * 2^e`.  A zero is `fin neg 0 e`. -/
inductive Fp where
  | nan : Fp
  | inf (neg : Bool) : Fp
  | fin (neg : Bool) (m : Nat) (e : Int) : Fp
  deriving DecidableEq

/-- A binary interchange format: `prec` significand bits, and the exponents of
the unit in the last place of the smallest and of the largest binade. -/
structure Format where
  prec : Nat
  emin : Int
  emax : Int

/-- The format of C++ `float`. -/
def binary32 : Format := ⟨24, -149, 104⟩

/-- The format of C++ `double`. -/
def binary64 : Format := ⟨53, -1074, 971⟩

/-- Worker of `bits`, structural in its first argument. -/
def bitsAux : Nat → Nat → Nat
  | 0, _ => 0
  | k + 1, m => if m = 0 then 0 else bitsAux k (m / 2) + 1

/-- The number of binary digits of `m` (`0` for `0`). -/
def bits (m : Nat) : Nat := bitsAux m m

/-- The finite number `(-1)^neg * m * 2^e` with its significand made odd, so
that equal numbers of equal sign are equal data; a zero is `fin neg 0 0`. -/
def Fp.mk (neg : Bool) (m : Nat) (e : Int) : Fp :=
  if m = 0 then Fp.fin neg 0 0
  else
    let b : Nat := Nat.gcd m (2 ^ bits m)
    Fp.fin neg (m / b) (e + ((bits b - 1 : Nat) : Int))

/-- Round the exact number `(-1)^neg * m * 2^e` to the format, to nearest with
ties to even, overflowing to an infinity. -/
def roundTo (f : Format) (neg : Bool) (m : Nat) (e : Int) : Fp :=
  if m = 0 then Fp.fin neg 0 0
  else
    let t : Int := max (e + (bits m : Int) - (f.prec : Int)) f.emin
    if t ≤ e then
      if f.emax < t then Fp.inf neg else Fp.mk neg m e
    else
      let sh : Nat := (t - e).toNat
      let q : Nat := m / 2 ^ sh
      let r : Nat := m % 2 ^ sh
      let half : Nat := 2 ^ (sh - 1)
      let q1 : Nat := if half < r ∨ (r = half ∧ q % 2 = 1) then q + 1 else q
      if f.emax < t ∨ (t = f.emax ∧ q1 = 2 ^ f.prec) then Fp.inf neg
      else Fp.mk neg q1 t

/-- The integer `(-1)^neg * m * 2^(e - e0)`, for `e0 ≤ e`. -/
def scaled (neg : Bool) (m : Nat) (e e0 : Int) : Int :=
  let a : Int := ((m * 2 ^ (e - e0).toNat : Nat) : Int)
  if neg then -a else a

/-- Unary minus. -/
def Fp.neg : Fp → Fp
  | Fp.nan => Fp.nan
  | Fp.inf n => Fp.inf (!n)
  | Fp.fin n m e => Fp.fin (!n) m e

/-- Conversion to a format (`double` to `float`). -/
def Fp.cvt (f : Format) : Fp → Fp
  | Fp.nan => Fp.nan
  | Fp.inf n => Fp.inf n
  | Fp.fin n m e => roundTo f n m e

/-- Addition in a format. -/
def Fp.add (f : Format) : Fp → Fp → Fp
  | Fp.nan, _ => Fp.nan
  | _, Fp.nan => Fp.nan
  | Fp.inf n1, Fp.inf n2 => if n1 = n2 then Fp.inf n1 else Fp.nan
  | Fp.inf n1, Fp.fin _ _ _ => Fp.inf n1
  | Fp.fin _ _ _, Fp.inf n2 => Fp.inf n2
  | Fp.fin n1 m1 e1, Fp.fin n2 m2 e2 =>
    let e0 : Int := min e1 e2
    let s : Int := scaled n1 m1 e1 e0 + scaled n2 m2 e2 e0
    if s = 0 then Fp.fin (n1 && n2) 0 0
    else roundTo f (decide (s < 0)) s.natAbs e0

/-- Subtraction in a format. -/
def Fp.sub (f : Format) (a b : Fp) : Fp := Fp.add f a b.neg

/-- Multiplication in a format. -/
def Fp.mul (f : Format) : Fp → Fp → Fp
  | Fp.nan, _ => Fp.nan
  | _, Fp.nan => Fp.nan
  | Fp.inf n1, Fp.inf n2 => Fp.inf (xor n1 n2)
  | Fp.inf n1, Fp.fin n2 m2 _ => if m2 = 0 then Fp.nan else Fp.inf (xor n1 n2)
  | Fp.fin n1 m1 _, Fp.inf n2 => if m1 = 0 then Fp.nan else Fp.inf (xor n1 n2)
  | Fp.fin n1 m1 e1, Fp.fin n2 m2 e2 => roundTo f (xor n1 n2) (m1 * m2) (e1 + e2)

/-- Bit-by-bit integer square root: `isqrtAux n k r` tries the bits below `k`. -/
def isqrtAux (n : Nat) : Nat → Nat → Nat
  | 0, r => r
  | k + 1, r => isqrtAux n k (if (r + 2 ^ k) * (r + 2 ^ k) ≤ n then r + 2 ^ k else r)

/-- The floor of the square root of `n`. -/
def isqrt (n : Nat) : Nat := isqrtAux n (bits n / 2 + 1) 0

/-- Correctly rounded square root in a format.  The significand is widened to
more than `2 * prec + 4` bits at an even exponent; the integer root plus a
sticky bit then rounds like the exact root. -/
def Fp.sqrt (f : Format) : Fp → Fp
  | Fp.nan => Fp.nan
  | Fp.inf n => if n then Fp.nan else Fp.inf false
  | Fp.fin n m e =>
    if m = 0 then Fp.fin n 0 0
    else if n then Fp.nan
    else
      let k0 : Nat := 2 * f.prec + 4
      let k : Nat := if (e - (k0 : Int)) % 2 = 0 then k0 else k0 + 1
      let w : Nat := m * 2 ^ k
      let s : Nat := isqrt w
      let sticky : Nat := if s * s = w then 0 else 1
      roundTo f false (2 * s + sticky) ((e - (k : Int)) / 2 - 1)

/-- The comparison `a < b`; false when an operand is NaN. -/
def Fp.lt : Fp → Fp → Bool
  | Fp.nan, _ => false
  | _, Fp.nan => false
  | Fp.inf n1, Fp.inf n2 => n1 && !n2
  | Fp.inf n1, Fp.fin _ _ _ => n1
  | Fp.fin _ _ _, Fp.inf n2 => !n2
  | Fp.fin n1 m1 e1, Fp.fin n2 m2 e2 =>
    decide (scaled n1 m1 e1 (min e1 e2) < scaled n2 m2 e2 (min e1 e2))

/-- The value of the decimal literal `n / d` (`d ≠ 0`) in a format: the quotient is
widened by `prec + 2` bits beyond the denominator, and the floor plus a sticky
bit then rounds like the exact quotient. -/
def Fp.ofDec (f : Format) (n d : Nat) : Fp :=
  let k : Nat := f.prec + 2 + bits d
  let q : Nat := n * 2 ^ k / d
  let sticky : Nat := if q * d = n * 2 ^ k then 0 else 1
  roundTo f false (2 * q + sticky) (-((k : Int) + 1))

/-- The number `0.0`. -/
def Fp.zero : Fp := Fp.fin false 0 0

/-- The number `1.0`. -/
def Fp.one : Fp := Fp.fin false 1 0

/-! ## Messages -/

/-- Message `geometry_msgs/Point` (three `float64`). -/
structure Point where
  x : Fp
  y : Fp
  z : Fp
  deriving DecidableEq

/-- Message `geometry_msgs/Quaternion` (four `float64`). -/
structure Quaternion where
  x : Fp
  y : Fp
  z : Fp
  w : Fp
  deriving DecidableEq

/-- Message `geometry_msgs/Pose`. -/
structure Pose where
  position : Point
  orientation : Quaternion
  deriving DecidableEq

/-- Message `geometry_msgs/PoseWithCovariance`; the covariance is never read. -/
structure PoseWithCovariance where
  pose : Pose
  deriving DecidableEq

/-- Message `nav_msgs/Odometry`; only `pose.pose` is read by the node. -/
structure Odometry where
  pose : PoseWithCovariance
  deriving DecidableEq

/-- Message `geometry_msgs/Vector3` (three `float64`). -/
structure Vector3 where
  x : Fp
  y : Fp
  z : Fp
  deriving DecidableEq

/-- Message `std_msgs/ColorRGBA` (four `float32`). -/
structure ColorRGBA where
  r : Fp
  g : Fp
  b : Fp
  a : Fp
  deriving DecidableEq

/-- A `ros::Time` value. -/
structure Time where
  sec : Nat
  nsec : Nat
  deriving DecidableEq

/-- Message `std_msgs/Header`, the fields the node writes. -/
structure Header where
  frame_id : String
  stamp : Time
  deriving DecidableEq

/-- Message `visualization_msgs/Marker`, the fields the node writes. -/
structure Marker where
  header : Header
  ns : String
  id : Int
  type : Nat
  pose : Pose
  scale : Vector3
  color : ColorRGBA
  deriving DecidableEq

/-- The constant `visualization_msgs::Marker::CUBE`. -/
def Marker.CUBE : Nat := 1

/-- A default-constructed `geometry_msgs::Pose`: the generated message
constructor sets all seven fields to `0.0`. -/
def Pose.default : Pose :=
  ⟨⟨Fp.zero, Fp.zero, Fp.zero⟩, ⟨Fp.zero, Fp.zero, Fp.zero, Fp.zero⟩⟩

/-! ## The node -/

/-- The constant `const float dist_thres = 0.4;`: the `double` literal `0.4`
converted to `float`. -/
def dist_thres : Fp := Fp.cvt binary32 (Fp.ofDec binary64 4 10)

/-- The data members of class `AddMarkers` (lines 27-34). -/
structure AddMarkers where
  odom : Pose
  goal : Pose
  marker : Marker
  reach_pickup : Bool
  reach_dropoff : Bool
  deriving DecidableEq

/-- The constructor `AddMarkers::AddMarkers` (lines 43-83); `now` is the value
of `ros::Time::now()`.  The members `odom` and `goal` are not assigned and
keep their default construction. -/
def AddMarkers.ctor (now : Time) : AddMarkers :=
  { odom := Pose.default
    goal := Pose.default
    reach_pickup := false
    reach_dropoff := false
    marker :=
      { header := { frame_id := "map", stamp := now }
        ns := "add_markers"
        id := 0
        type := Marker.CUBE
        pose :=
          { position := { x := Fp.ofDec binary64 0 10, y := Fp.ofDec binary64 0 10, z := Fp.zero }
            orientation :=
              { x := Fp.ofDec binary64 0 10, y := Fp.ofDec binary64 0 10,
                z := Fp.ofDec binary64 0 10, w := Fp.ofDec binary64 0 10 } }
        scale :=
          { x := Fp.ofDec binary64 4 10, y := Fp.ofDec binary64 4 10,
            z := Fp.ofDec binary64 4 10 }
        color :=
          { r := Fp.ofDec binary32 3 10, g := Fp.ofDec binary32 5 10,
            b := Fp.ofDec binary32 7 10, a := Fp.cvt binary32 (Fp.ofDec binary64 0 10) } } }

/-- The method `AddMarkers::reach_target` (lines 85-91). -/
def AddMarkers.reach_target (pos target : Pose) : Bool :=
  let dx : Fp := Fp.cvt binary32 (Fp.sub binary64 pos.position.x target.position.x)
  let dy : Fp := Fp.cvt binary32 (Fp.sub binary64 pos.position.y target.position.y)
  let dz : Fp := Fp.cvt binary32 (Fp.sub binary64 pos.position.z target.position.z)
  let dist : Fp :=
    Fp.sqrt binary32
      (Fp.add binary32 (Fp.add binary32 (Fp.mul binary32 dx dx) (Fp.mul binary32 dy dy))
        (Fp.mul binary32 dz dz))
  Fp.lt dist dist_thres

/-- The callback `AddMarkers::goalCallback` (lines 93-131).  The log lines and
the five-second sleep of the middle branch change no member. -/
def AddMarkers.goalCallback (self : AddMarkers) (msg : Pose) : AddMarkers :=
  let self := { self with goal.position.x := msg.position.x }
  let self := { self with goal.position.y := msg.position.y }
  let self := { self with goal.position.z := msg.position.z }
  let self := { self with goal.orientation.x := msg.orientation.x }
  let self := { self with goal.orientation.y := msg.orientation.y }
  let self := { self with goal.orientation.z := msg.orientation.z }
  let self := { self with goal.orientation.w := msg.orientation.w }
  if !self.reach_pickup then
    let self := { self with marker.pose.position.x := self.goal.position.x }
    let self := { self with marker.pose.position.y := self.goal.position.y }
    let self := { self with marker.pose.orientation.w := self.goal.orientation.w }
    { self with marker.color.a := Fp.cvt binary32 (Fp.ofDec binary64 1 1) }
  else if !self.reach_dropoff then
    { self with marker.color.a := Fp.cvt binary32 (Fp.ofDec binary64 0 10) }
  else
    let self := { self with marker.pose.position.x := self.goal.position.x }
    let self := { self with marker.pose.position.y := self.goal.position.y }
    let self := { self with marker.pose.orientation.w := self.goal.orientation.w }
    { self with marker.color.a := Fp.cvt binary32 (Fp.ofDec binary64 1 1) }

/-- The callback `AddMarkers::odomCallback` (lines 133-149). -/
def AddMarkers.odomCallback (self : AddMarkers) (msg : Odometry) : AddMarkers :=
  let self := { self with odom.position.x := msg.pose.pose.position.x }
  let self := { self with odom.position.y := msg.pose.pose.position.y }
  let self := { self with odom.position.z := msg.pose.pose.position.z }
  let self := { self with odom.orientation.x := msg.pose.pose.orientation.x }
  let self := { self with odom.orientation.y := msg.pose.pose.orientation.y }
  let self := { self with odom.orientation.z := msg.pose.pose.orientation.z }
  let self := { self with odom.orientation.w := msg.pose.pose.orientation.w }
  let self :=
    if !self.reach_pickup && AddMarkers.reach_target self.odom self.goal then
      { self with reach_pickup := true }
    else self
  let self :=
    if self.reach_pickup && !self.reach_dropoff
        && AddMarkers.reach_target self.odom self.goal then
      { self with reach_dropoff := true }
    else self
  self

/-- The method `AddMarkers::publishMarkers` (lines 151-153): the message handed
to the publisher. -/
def AddMarkers.publishMarkers (self : AddMarkers) : Marker := self.marker

/-- One subscriber callback dispatched by `ros::spinOnce`. -/
inductive Event where
  | goal (msg : Pose) : Event
  | odom (msg : Odometry) : Event
  deriving DecidableEq

/-- Dispatch of one callback. -/
def AddMarkers.step (self : AddMarkers) : Event → AddMarkers
  | Event.goal msg => self.goalCallback msg
  | Event.odom msg => self.odomCallback msg

/-- The node after a finite sequence of callbacks, oldest first. -/
def AddMarkers.run (self : AddMarkers) (events : List Event) : AddMarkers :=
  events.foldl AddMarkers.step self

/-- Some goal message is among the callbacks (the claims' "a goal has been
received"). -/
def goalReceived (events : List Event) : Bool :=
  events.any fun e => match e with
    | Event.goal _ => true
    | Event.odom _ => false

/-- A pose at position `(x, y, z)` with orientation `(0, 0, 0, qw)`. -/
def poseAt (x y z qw : Fp) : Pose := ⟨⟨x, y, z⟩, ⟨Fp.zero, Fp.zero, Fp.zero, qw⟩⟩

/-- An odometry message carrying the pose `p`. -/
def odomAt (p : Pose) : Odometry := ⟨⟨p⟩⟩

/-- The `double` literal `n / d`. -/
def lit (n d : Nat) : Fp := Fp.ofDec binary64 n d

/-- The invariant of the reachable states: the two flags agree, and the marker
is visible exactly when a goal message has been received (`g`). -/
def Inv (s : AddMarkers) (g : Bool) : Prop :=
  s.reach_pickup = s.reach_dropoff ∧ s.marker.color.a = (if g then Fp.one else Fp.zero)

/-- A pose at the integer position `(x, y, 0)` with orientation `(0, 0, 0, 1)`. -/
def xy (x y : Nat) : Pose := poseAt (lit x 1) (lit y 1) (lit 0 1) (lit 1 1)

/-- First half of the happy path: the pickup goal `(3, 0)`, then the poses
`(0,0)`, `(1,0)`, `(2,0)`, `(3,0)`. -/
def happyPickup : List Event :=
  [Event.goal (xy 3 0), Event.odom (odomAt (xy 0 0)), Event.odom (odomAt (xy 1 0)),
    Event.odom (odomAt (xy 2 0)), Event.odom (odomAt (xy 3 0))]

/-- Second half of the happy path: the dropoff goal `(3, 3)`, then the poses
`(3,0)`, `(3,3)`. -/
def happyDropoff : List Event :=
  [Event.goal (xy 3 3), Event.odom (odomAt (xy 3 0)), Event.odom (odomAt (xy 3 3))]

/-- The pickup goal of the threshold scenario: position `(0.4, 0, 0)`. -/
def thresholdGoal : Pose := poseAt (lit 4 10) (lit 0 1) (lit 0 1) (lit 1 1)

/-- The index of the mission state in the order AwaitingPickupGoal (0),
EnRouteToPickup (1), AtPickup or EnRouteToDropoff (2), AtDropoff (4), read off
the flags as the claims read them; `g` tells whether a goal was received. -/
def missionIndex (g : Bool) (s : AddMarkers) : Nat :=
  if s.reach_dropoff then 4 else if s.reach_pickup then 2 else if g then 1 else 0

/-- The rational value of a finite datum; `0` for NaN and the infinities. -/
def Fp.toRat : Fp → ℚ
  | Fp.fin n m e => (if n then -1 else 1) * (m : ℚ) * (2 : ℚ) ^ e
  | _ => 0

/-- Whether a datum is a finite number. -/
def Fp.isFin : Fp → Bool
  | Fp.fin _ _ _ => true
  | _ => false

/-- The unit roundoff `2 ^ (-prec)` of a format. -/
def Format.u (f : Format) : ℚ := (2 : ℚ) ^ (-(f.prec : Int))

/-- Half of the smallest positive number of a format, `2 ^ (emin - 1)`. -/
def Format.eta (f : Format) : ℚ := (2 : ℚ) ^ (f.emin - 1)

/-- The overflow threshold `2 ^ (emax + prec - 1)` of a format: rounding
overflows only on numbers at least this large. -/
def Format.big (f : Format) : ℚ := (2 : ℚ) ^ (f.emax + (f.prec : Int) - 1)

/-- The exact squared Euclidean distance between the positions of two poses
with finite coordinates. -/
def distSq (p t : Pose) : ℚ :=
  (p.position.x.toRat - t.position.x.toRat) ^ 2
    + (p.position.y.toRat - t.position.y.toRat) ^ 2
    + (p.position.z.toRat - t.position.z.toRat) ^ 2

/-- Whether the three coordinates of a point are finite numbers. -/
def Point.isFin (p : Point) : Bool := p.x.isFin && p.y.isFin && p.z.isFin

/-- A pose on the x axis at `x = 0.3999999999`, less than `0.4` from the origin. -/
def nearPose : Pose := poseAt (lit 3999999999 10000000000) (lit 0 1) (lit 0 1) (lit 1 1)

/-- The members of a marker that neither callback assigns: header, namespace,
id, shape, scale, the colour channels `r`, `g`, `b`, and the pose components
`position.z`, `orientation.x`, `orientation.y`, `orientation.z`. -/
def Marker.unassigned (m : Marker) :
    Header × String × Int × Nat × Vector3 × (Fp × Fp × Fp) × (Fp × Fp × Fp × Fp) :=
  (m.header, m.ns, m.id, m.type, m.scale, (m.color.r, m.color.g, m.color.b),
    (m.pose.position.z, m.pose.orientation.x, m.pose.orientation.y, m.pose.orientation.z))

/-- Whether `goalCallback` takes its middle branch (lines 112-119), the one that
hides the marker and calls `ros::Duration(5.0).sleep()`: the first guard
`!reach_pickup` fails and the second guard `!reach_dropoff` holds. -/
def AddMarkers.goalCallbackSleeps (self : AddMarkers) : Bool :=
  if !self.reach_pickup then false
  else if !self.reach_dropoff then true
  else false

/-- The pose of the most recent goal message among the callbacks, and the
default-constructed pose when there is none. -/
def lastGoal (events : List Event) : Pose :=
  events.foldl (fun acc e => match e with
    | Event.goal msg => msg
    | Event.odom _ => acc) Pose.default

/-- The magnitude of a datum: the sign is cleared. -/
def Fp.abs : Fp → Fp
  | Fp.nan => Fp.nan
  | Fp.inf _ => Fp.inf false
  | Fp.fin _ m e => Fp.fin false m e

/-! ## Known values of the arithmetic -/

/-- The `float` nearest to `0.1` is `13421773 * 2 ^ (-27)`, and the `double`
sum `0.1 + 0.2` is `0.30000000000000004`, one unit above the literal `0.3`. -/
theorem known_decimal_values :
    Fp.ofDec binary32 1 10 = Fp.fin false 13421773 (-27) ∧
      Fp.add binary64 (lit 1 10) (lit 2 10) = Fp.fin false 1351079888211149 (-52) ∧
      lit 3 10 = Fp.fin false 5404319552844595 (-54) := by
  decide

/-- The square root of two in `float` and in `double`. -/
theorem known_sqrt_two :
    Fp.sqrt binary32 (Fp.fin false 2 0) = Fp.fin false 11863283 (-23) ∧
      Fp.sqrt binary64 (Fp.fin false 2 0) = Fp.fin false 6369051672525773 (-52) := by
  decide

/-- Ties round to even: `2 ^ 24 + 1` rounds down to `2 ^ 24` and `2 ^ 24 + 3`
rounds up to `2 ^ 24 + 4` in `float`. -/
theorem known_ties_to_even :
    Fp.cvt binary32 (Fp.fin false 16777217 0) = Fp.fin false 1 24 ∧
      Fp.cvt binary32 (Fp.fin false 16777219 0) = Fp.fin false 4194305 2 := by
  decide

/-- The largest `float` is kept, half a unit above it overflows, and so does the
square of `2 ^ 100`. -/
theorem known_overflow :
    Fp.cvt binary32 (Fp.fin false 16777215 104) = Fp.fin false 16777215 104 ∧
      Fp.cvt binary32 (Fp.fin false 33554431 103) = Fp.inf false ∧
      Fp.mul binary32 (Fp.fin false 1 100) (Fp.fin false 1 100) = Fp.inf false := by
  decide

/-- The smallest positive `float` is `2 ^ (-149)`; half of it rounds to zero and
three quarters of it round up to it. -/
theorem known_underflow :
    Fp.cvt binary32 (Fp.fin false 1 (-149)) = Fp.fin false 1 (-149) ∧
      Fp.cvt binary32 (Fp.fin false 1 (-150)) = Fp.fin false 0 0 ∧
      Fp.cvt binary32 (Fp.fin false 3 (-151)) = Fp.fin false 1 (-149) := by
  decide

/-! ## Effect of the callbacks on each member -/

theorem lit_alpha_one : Fp.cvt binary32 (Fp.ofDec binary64 1 1) = Fp.one := by decide

theorem lit_alpha_zero : Fp.cvt binary32 (Fp.ofDec binary64 0 10) = Fp.zero := by decide

theorem lit_zero : Fp.ofDec binary64 0 10 = Fp.zero := by decide

theorem Fp.one_ne_zero : Fp.one ≠ Fp.zero := by decide

theorem Fp.zero_ne_one : Fp.zero ≠ Fp.one := by decide

theorem goalCallback_goal (s : AddMarkers) (msg : Pose) : (s.goalCallback msg).goal = msg := by
  unfold AddMarkers.goalCallback
  cases s.reach_pickup <;> cases s.reach_dropoff <;> rfl

theorem goalCallback_odom (s : AddMarkers) (msg : Pose) : (s.goalCallback msg).odom = s.odom := by
  unfold AddMarkers.goalCallback
  cases s.reach_pickup <;> cases s.reach_dropoff <;> rfl

theorem goalCallback_reach_pickup (s : AddMarkers) (msg : Pose) :
    (s.goalCallback msg).reach_pickup = s.reach_pickup := by
  unfold AddMarkers.goalCallback
  cases s.reach_pickup <;> cases s.reach_dropoff <;> rfl

theorem goalCallback_reach_dropoff (s : AddMarkers) (msg : Pose) :
    (s.goalCallback msg).reach_dropoff = s.reach_dropoff := by
  unfold AddMarkers.goalCallback
  cases s.reach_pickup <;> cases s.reach_dropoff <;> rfl

theorem goalCallback_marker_en_route (s : AddMarkers) (msg : Pose)
    (h : s.reach_pickup = false) :
    (s.goalCallback msg).marker =
      { s.marker with
        pose :=
          { position := { s.marker.pose.position with x := msg.position.x, y := msg.position.y }
            orientation := { s.marker.pose.orientation with w := msg.orientation.w } }
        color := { s.marker.color with a := Fp.one } } := by
  unfold AddMarkers.goalCallback
  simp only [h, lit_alpha_one]
  rfl

theorem goalCallback_marker_at_pickup (s : AddMarkers) (msg : Pose)
    (h : s.reach_pickup = true) (h2 : s.reach_dropoff = false) :
    (s.goalCallback msg).marker = { s.marker with color := { s.marker.color with a := Fp.zero } } := by
  unfold AddMarkers.goalCallback
  simp only [h, h2, lit_alpha_zero]
  rfl

theorem goalCallback_marker_at_dropoff (s : AddMarkers) (msg : Pose)
    (h : s.reach_pickup = true) (h2 : s.reach_dropoff = true) :
    (s.goalCallback msg).marker =
      { s.marker with
        pose :=
          { position := { s.marker.pose.position with x := msg.position.x, y := msg.position.y }
            orientation := { s.marker.pose.orientation with w := msg.orientation.w } }
        color := { s.marker.color with a := Fp.one } } := by
  unfold AddMarkers.goalCallback
  simp only [h, h2, lit_alpha_one]
  rfl

theorem odomCallback_odom (s : AddMarkers) (msg : Odometry) :
    (s.odomCallback msg).odom = msg.pose.pose := by
  unfold AddMarkers.odomCallback
  simp only []
  split_ifs <;> rfl

theorem odomCallback_goal (s : AddMarkers) (msg : Odometry) :
    (s.odomCallback msg).goal = s.goal := by
  unfold AddMarkers.odomCallback
  simp only []
  split_ifs <;> rfl

theorem odomCallback_marker (s : AddMarkers) (msg : Odometry) :
    (s.odomCallback msg).marker = s.marker := by
  unfold AddMarkers.odomCallback
  simp only []
  split_ifs <;> rfl

theorem odomCallback_reach_pickup (s : AddMarkers) (msg : Odometry) :
    (s.odomCallback msg).reach_pickup
      = (s.reach_pickup || AddMarkers.reach_target msg.pose.pose s.goal) := by
  unfold AddMarkers.odomCallback
  cases hp : s.reach_pickup <;> cases hr : AddMarkers.reach_target msg.pose.pose s.goal <;>
    cases hd : s.reach_dropoff <;> simp [hp, hr, hd]

theorem odomCallback_reach_dropoff (s : AddMarkers) (msg : Odometry) :
    (s.odomCallback msg).reach_dropoff
      = (s.reach_dropoff || AddMarkers.reach_target msg.pose.pose s.goal) := by
  unfold AddMarkers.odomCallback
  cases hp : s.reach_pickup <;> cases hr : AddMarkers.reach_target msg.pose.pose s.goal <;>
    cases hd : s.reach_dropoff <;> simp [hp, hr, hd]

/-! ## Runs -/

theorem run_nil (s : AddMarkers) : s.run [] = s := rfl

theorem run_cons (s : AddMarkers) (e : Event) (es : List Event) :
    s.run (e :: es) = (s.step e).run es := rfl

theorem run_append (s : AddMarkers) (es1 es2 : List Event) :
    s.run (es1 ++ es2) = (s.run es1).run es2 := by
  unfold AddMarkers.run
  exact List.foldl_append _ _ _ _

theorem goalReceived_cons (e : Event) (es : List Event) :
    goalReceived (e :: es) = (goalReceived [e] || goalReceived es) := by
  cases e <;> simp [goalReceived]

theorem inv_ctor (now : Time) : Inv (AddMarkers.ctor now) false :=
  ⟨rfl, lit_alpha_zero⟩

theorem inv_step (s : AddMarkers) (g : Bool) (e : Event) (h : Inv s g) :
    Inv (s.step e) (g || goalReceived [e]) := by
  obtain ⟨hf, ha⟩ := h
  cases e with
  | goal msg =>
    have hg : (g || goalReceived [Event.goal msg]) = true := by simp [goalReceived]
    rw [hg]
    refine ⟨?_, ?_⟩
    · simp only [AddMarkers.step, goalCallback_reach_pickup, goalCallback_reach_dropoff, hf]
    · cases hp : s.reach_pickup with
      | false =>
        simp only [AddMarkers.step, goalCallback_marker_en_route s msg hp, if_true]
      | true =>
        have hd : s.reach_dropoff = true := by rw [← hf, hp]
        simp only [AddMarkers.step, goalCallback_marker_at_dropoff s msg hp hd, if_true]
  | odom msg =>
    have hg : (g || goalReceived [Event.odom msg]) = g := by simp [goalReceived]
    rw [hg]
    refine ⟨?_, ?_⟩
    · simp only [AddMarkers.step, odomCallback_reach_pickup, odomCallback_reach_dropoff, hf]
    · simp only [AddMarkers.step, odomCallback_marker, ha]

theorem inv_run (es : List Event) :
    ∀ (s : AddMarkers) (g : Bool), Inv s g → Inv (s.run es) (g || goalReceived es) := by
  induction es with
  | nil => intro s g h; simpa [goalReceived, run_nil] using h
  | cons e es ih =>
    intro s g h
    have h2 := ih (s.step e) (g || goalReceived [e]) (inv_step s g e h)
    rw [run_cons, goalReceived_cons, ← Bool.or_assoc]
    exact h2

theorem inv_reachable (now : Time) (es : List Event) :
    Inv ((AddMarkers.ctor now).run es) (goalReceived es) := by
  simpa using inv_run es (AddMarkers.ctor now) false (inv_ctor now)

theorem run_replicate_odom (msg : Odometry) (n : Nat) :
    ∀ s : AddMarkers, s.reach_pickup = false →
      AddMarkers.reach_target msg.pose.pose s.goal = false →
      (s.run (List.replicate n (Event.odom msg))).reach_pickup = s.reach_pickup ∧
        (s.run (List.replicate n (Event.odom msg))).reach_dropoff = s.reach_dropoff ∧
        (s.run (List.replicate n (Event.odom msg))).marker = s.marker ∧
        (s.run (List.replicate n (Event.odom msg))).goal = s.goal := by
  induction n with
  | zero => intro s _ _; exact ⟨rfl, rfl, rfl, rfl⟩
  | succ n ih =>
    intro s hp hr
    have h1 : (s.odomCallback msg).reach_pickup = s.reach_pickup := by
      rw [odomCallback_reach_pickup, hr, Bool.or_false]
    have h2 : (s.odomCallback msg).reach_dropoff = s.reach_dropoff := by
      rw [odomCallback_reach_dropoff, hr, Bool.or_false]
    have h3 := odomCallback_marker s msg
    have h4 := odomCallback_goal s msg
    obtain ⟨i1, i2, i3, i4⟩ := ih (s.odomCallback msg) (by rw [h1, hp]) (by rw [h4, hr])
    rw [List.replicate_succ, run_cons]
    simp only [AddMarkers.step]
    exact ⟨i1.trans h1, i2.trans h2, i3.trans h3, i4.trans h4⟩

theorem step_reach_pickup_mono (s : AddMarkers) (e : Event) (h : s.reach_pickup = true) :
    (s.step e).reach_pickup = true := by
  cases e with
  | goal msg => simp only [AddMarkers.step, goalCallback_reach_pickup, h]
  | odom msg => simp only [AddMarkers.step, odomCallback_reach_pickup, h, Bool.true_or]

theorem step_reach_dropoff_mono (s : AddMarkers) (e : Event) (h : s.reach_dropoff = true) :
    (s.step e).reach_dropoff = true := by
  cases e with
  | goal msg => simp only [AddMarkers.step, goalCallback_reach_dropoff, h]
  | odom msg => simp only [AddMarkers.step, odomCallback_reach_dropoff, h, Bool.true_or]

theorem run_reach_pickup_mono (es : List Event) :
    ∀ s : AddMarkers, s.reach_pickup = true → (s.run es).reach_pickup = true := by
  induction es with
  | nil => intro s h; exact h
  | cons e es ih => intro s h; exact ih (s.step e) (step_reach_pickup_mono s e h)

theorem run_reach_dropoff_mono (es : List Event) :
    ∀ s : AddMarkers, s.reach_dropoff = true → (s.run es).reach_dropoff = true := by
  induction es with
  | nil => intro s h; exact h
  | cons e es ih => intro s h; exact ih (s.step e) (step_reach_dropoff_mono s e h)

theorem goalReceived_append (es1 es2 : List Event) :
    goalReceived (es1 ++ es2) = (goalReceived es1 || goalReceived es2) := by
  simp [goalReceived]

/-! ## Error bounds of the arithmetic -/

theorem bitsAux_spec : ∀ (k m : Nat), m ≤ k → 0 < m →
    2 ^ (bitsAux k m - 1) ≤ m ∧ m < 2 ^ bitsAux k m ∧ 0 < bitsAux k m := by
  intro k
  induction k with
  | zero => intro m h1 h2; omega
  | succ k ih =>
    intro m h1 h2
    have hm : m ≠ 0 := by omega
    simp only [bitsAux, hm, if_false]
    by_cases h : m / 2 = 0
    · have hm1 : m = 1 := by omega
      subst hm1
      cases k <;> simp [bitsAux]
    · obtain ⟨i1, i2, i3⟩ := ih (m / 2) (by omega) (by omega)
      refine ⟨?_, ?_, by omega⟩
      · have : bitsAux k (m / 2) + 1 - 1 = (bitsAux k (m / 2) - 1) + 1 := by omega
        rw [this, pow_succ]
        omega
      · rw [pow_succ]
        omega

theorem bits_spec (m : Nat) (h : 0 < m) :
    2 ^ (bits m - 1) ≤ m ∧ m < 2 ^ bits m ∧ 0 < bits m :=
  bitsAux_spec m m (le_refl m) h

theorem bits_pow (j : Nat) : bits (2 ^ j) = j + 1 := by
  obtain ⟨h1, h2, h3⟩ := bits_spec (2 ^ j) (by positivity)
  have a : bits (2 ^ j) - 1 ≤ j := (Nat.pow_le_pow_iff_right (by norm_num)).1 h1
  have b : j < bits (2 ^ j) := (Nat.pow_lt_pow_iff_right (by norm_num)).1 h2
  omega

theorem toRat_fin (n : Bool) (m : Nat) (e : Int) :
    Fp.toRat (Fp.fin n m e) = (if n then -1 else 1) * (m : ℚ) * (2 : ℚ) ^ e := rfl

theorem abs_toRat_fin (n : Bool) (m : Nat) (e : Int) :
    |Fp.toRat (Fp.fin n m e)| = (m : ℚ) * (2 : ℚ) ^ e := by
  have h2 : (0 : ℚ) < (2 : ℚ) ^ e := by positivity
  have hm : (0 : ℚ) ≤ (m : ℚ) := by positivity
  rw [toRat_fin]
  cases n
  · simp [abs_mul, abs_of_nonneg hm, abs_of_pos h2]
  · simp [abs_mul, abs_of_nonneg hm, abs_of_pos h2]

theorem mk_spec (neg : Bool) (m : Nat) (e : Int) :
    ∃ q t, Fp.mk neg m e = Fp.fin neg q t ∧
      Fp.toRat (Fp.fin neg q t) = Fp.toRat (Fp.fin neg m e) := by
  unfold Fp.mk
  by_cases hm : m = 0
  · subst hm
    exact ⟨0, 0, by simp, by simp [toRat_fin]⟩
  · simp only [hm, if_false]
    obtain ⟨j, _, hb⟩ := (Nat.dvd_prime_pow Nat.prime_two).1 (Nat.gcd_dvd_right m (2 ^ bits m))
    have hdvd : 2 ^ j ∣ m := hb ▸ Nat.gcd_dvd_left m (2 ^ bits m)
    refine ⟨_, _, rfl, ?_⟩
    rw [hb, bits_pow, toRat_fin, toRat_fin]
    have hc : ((m / 2 ^ j : Nat) : ℚ) = (m : ℚ) / (2 : ℚ) ^ j := by
      rw [Nat.cast_div hdvd (by positivity)]
      push_cast
      rfl
    rw [hc]
    have hz : (2 : ℚ) ^ (e + ((j + 1 - 1 : Nat) : Int)) = (2 : ℚ) ^ e * (2 : ℚ) ^ j := by
      rw [Nat.add_sub_cancel, zpow_add₀ (by norm_num : (2 : ℚ) ≠ 0), zpow_natCast]
    rw [hz]
    have hp : (2 : ℚ) ^ j ≠ 0 := by positivity
    field_simp
    cases neg <;> simp [mul_assoc]

theorem round_step (m sh : Nat) (hsh : 0 < sh) (q1 : Nat)
    (hq1 : q1 = if 2 ^ (sh - 1) < m % 2 ^ sh ∨ (m % 2 ^ sh = 2 ^ (sh - 1) ∧ m / 2 ^ sh % 2 = 1)
      then m / 2 ^ sh + 1 else m / 2 ^ sh) :
    q1 * 2 ^ sh ≤ m + 2 ^ (sh - 1) ∧ m ≤ q1 * 2 ^ sh + 2 ^ (sh - 1) := by
  have hP : 2 ^ sh = 2 * 2 ^ (sh - 1) := by
    have : sh = (sh - 1) + 1 := by omega
    conv_lhs => rw [this, pow_succ]
    ring
  have hdm := Nat.div_add_mod m (2 ^ sh)
  have hlt : m % 2 ^ sh < 2 ^ sh := Nat.mod_lt _ (by positivity)
  have hmul : (m / 2 ^ sh + 1) * 2 ^ sh = 2 ^ sh * (m / 2 ^ sh) + 2 ^ sh := by ring
  have hmul2 : (m / 2 ^ sh) * 2 ^ sh = 2 ^ sh * (m / 2 ^ sh) := by ring
  split_ifs at hq1 with hc
  · rw [hq1, hmul]
    rcases hc with hc | ⟨hc, _⟩ <;> omega
  · rw [hq1, hmul2]
    have : m % 2 ^ sh ≤ 2 ^ (sh - 1) := by
      by_contra hcon
      exact hc (Or.inl (by omega))
    omega

theorem zpow_two_pos (e : Int) : (0 : ℚ) < (2 : ℚ) ^ e := by positivity

theorem u_nonneg (f : Format) : 0 ≤ f.u := by unfold Format.u; positivity

theorem eta_nonneg (f : Format) : 0 ≤ f.eta := by unfold Format.eta; positivity

/-- Rounding either overflows, on a number of at least `2 ^ (emax + prec - 1)`, or
returns a finite number of the same sign within `u * |v| + eta` of the exact
number `v`. -/
theorem roundTo_spec (f : Format) (hf : f.emin ≤ f.emax) (neg : Bool) (m : Nat) (e : Int) :
    (roundTo f neg m e = Fp.inf neg ∧
        (2 : ℚ) ^ (f.emax + (f.prec : Int) - 1) ≤ (m : ℚ) * (2 : ℚ) ^ e) ∨
      ∃ q t, roundTo f neg m e = Fp.fin neg q t ∧
        |Fp.toRat (Fp.fin neg q t) - Fp.toRat (Fp.fin neg m e)|
          ≤ f.u * ((m : ℚ) * (2 : ℚ) ^ e) + f.eta := by
  have hu := u_nonneg f
  have he := eta_nonneg f
  have h2e := zpow_two_pos e
  have hm0 : (0 : ℚ) ≤ (m : ℚ) := by positivity
  have hrhs : 0 ≤ f.u * ((m : ℚ) * (2 : ℚ) ^ e) + f.eta := by positivity
  unfold roundTo
  by_cases hm : m = 0
  · right
    subst hm
    refine ⟨0, 0, by simp, ?_⟩
    simpa [toRat_fin] using hrhs
  · simp only [hm, if_false]
    have hmpos : 0 < m := Nat.pos_of_ne_zero hm
    obtain ⟨hb1, hb2, hb3⟩ := bits_spec m hmpos
    -- a number of `bits m` digits at exponent `e` is at least `2 ^ (e + bits m - 1)`
    have hbig : (2 : ℚ) ^ (e + (bits m : Int) - 1) ≤ (m : ℚ) * (2 : ℚ) ^ e := by
      have h1 : (2 : ℚ) ^ (e + (bits m : Int) - 1) = (2 : ℚ) ^ (bits m - 1) * (2 : ℚ) ^ e := by
        have : e + (bits m : Int) - 1 = ((bits m - 1 : Nat) : Int) + e := by omega
        rw [this, zpow_add₀ (by norm_num : (2 : ℚ) ≠ 0), zpow_natCast]
      rw [h1]
      have h2 : ((2 : ℚ) ^ (bits m - 1)) ≤ (m : ℚ) := by exact_mod_cast hb1
      exact mul_le_mul_of_nonneg_right h2 h2e.le
    have hover : f.emax < max (e + (bits m : Int) - (f.prec : Int)) f.emin →
        (2 : ℚ) ^ (f.emax + (f.prec : Int) - 1) ≤ (m : ℚ) * (2 : ℚ) ^ e := by
      intro h
      have h3 : f.emax < e + (bits m : Int) - (f.prec : Int) := by
        rcases max_cases (e + (bits m : Int) - (f.prec : Int)) f.emin with ⟨h4, _⟩ | ⟨h4, _⟩
        · rw [h4] at h; exact h
        · rw [h4] at h; omega
      refine le_trans ?_ hbig
      exact zpow_le_zpow_right₀ (by norm_num) (by omega)
    by_cases hte : max (e + (bits m : Int) - (f.prec : Int)) f.emin ≤ e
    · simp only [hte, if_true]
      by_cases hov : f.emax < max (e + (bits m : Int) - (f.prec : Int)) f.emin
      · left
        simp only [hov, if_true]
        exact ⟨trivial, hover hov⟩
      · right
        simp only [hov, if_false]
        obtain ⟨q, t, h1, h2⟩ := mk_spec neg m e
        refine ⟨q, t, h1, ?_⟩
        rw [h2, sub_self, abs_zero]
        exact hrhs
    · simp only [hte, if_false]
      set t : Int := max (e + (bits m : Int) - (f.prec : Int)) f.emin with ht
      have hsh : 0 < (t - e).toNat := by omega
      have hshc : (((t - e).toNat : Nat) : Int) = t - e := Int.toNat_of_nonneg (by omega)
      set sh : Nat := (t - e).toNat with hshdef
      set q1 : Nat := if 2 ^ (sh - 1) < m % 2 ^ sh ∨ (m % 2 ^ sh = 2 ^ (sh - 1) ∧ m / 2 ^ sh % 2 = 1)
        then m / 2 ^ sh + 1 else m / 2 ^ sh with hq1
      obtain ⟨r1, r2⟩ := round_step m sh hsh q1 hq1
      have hzt : (2 : ℚ) ^ t = (2 : ℚ) ^ sh * (2 : ℚ) ^ e := by
        have : t = (sh : Int) + e := by omega
        rw [this, zpow_add₀ (by norm_num : (2 : ℚ) ≠ 0), zpow_natCast]
      have r1q : (q1 : ℚ) * (2 : ℚ) ^ sh ≤ (m : ℚ) + (2 : ℚ) ^ (sh - 1) := by exact_mod_cast r1
      have r2q : (m : ℚ) ≤ (q1 : ℚ) * (2 : ℚ) ^ sh + (2 : ℚ) ^ (sh - 1) := by exact_mod_cast r2
      by_cases hov : f.emax < t ∨ (t = f.emax ∧ q1 = 2 ^ f.prec)
      · left
        simp only [hov, if_true]
        refine ⟨trivial, ?_⟩
        rcases hov with hov | ⟨hov1, hov2⟩
        · exact hover hov
        · -- the significand was rounded up to `2 ^ prec`
          have hzt2 : (2 : ℚ) ^ (f.emax + (f.prec : Int) - 1)
              = (2 : ℚ) ^ f.prec * (2 : ℚ) ^ (sh - 1) * (2 : ℚ) ^ e := by
            have : f.emax + (f.prec : Int) - 1 = (f.prec : Int) + ((sh - 1 : Nat) : Int) + e := by
              omega
            rw [this, zpow_add₀ (by norm_num : (2 : ℚ) ≠ 0),
              zpow_add₀ (by norm_num : (2 : ℚ) ≠ 0), zpow_natCast, zpow_natCast]
          rw [hzt2]
          refine mul_le_mul_of_nonneg_right ?_ h2e.le
          have hP : (2 : ℚ) ^ sh = 2 * (2 : ℚ) ^ (sh - 1) := by
            have : sh = (sh - 1) + 1 := by omega
            conv_lhs => rw [this, pow_succ]
            ring
          have hq : (q1 : ℚ) = (2 : ℚ) ^ f.prec := by exact_mod_cast hov2
          rw [hq, hP] at r2q
          have hpp : (1 : ℚ) ≤ (2 : ℚ) ^ f.prec := one_le_pow₀ (by norm_num)
          have hh : (0 : ℚ) < (2 : ℚ) ^ (sh - 1) := by positivity
          nlinarith
      · right
        simp only [hov, if_false]
        obtain ⟨q, t', h1, h2⟩ := mk_spec neg q1 t
        refine ⟨q, t', h1, ?_⟩
        rw [h2, toRat_fin, toRat_fin, hzt]
        have hsplit : (if neg then (-1 : ℚ) else 1) * (q1 : ℚ) * ((2 : ℚ) ^ sh * (2 : ℚ) ^ e)
            - (if neg then (-1 : ℚ) else 1) * (m : ℚ) * (2 : ℚ) ^ e
            = (if neg then (-1 : ℚ) else 1) * (((q1 : ℚ) * (2 : ℚ) ^ sh - (m : ℚ)) * (2 : ℚ) ^ e) := by
          ring
        have hsgn : |(if neg then (-1 : ℚ) else 1)| = 1 := by cases neg <;> simp
        rw [hsplit, abs_mul, hsgn, one_mul, abs_mul, abs_of_pos h2e]
        have habs : |(q1 : ℚ) * (2 : ℚ) ^ sh - (m : ℚ)| ≤ (2 : ℚ) ^ (sh - 1) := by
          rw [abs_le]; constructor <;> linarith
        have hhalf : (2 : ℚ) ^ (sh - 1) * (2 : ℚ) ^ e
            ≤ f.u * ((m : ℚ) * (2 : ℚ) ^ e) + f.eta := by
          rcases max_cases (e + (bits m : Int) - (f.prec : Int)) f.emin with ⟨h4, _⟩ | ⟨h4, _⟩
          · -- normal range: half a unit in the last place is at most `u * v`
            have hbits : bits m = sh + f.prec := by omega
            have h5 : (2 : ℚ) ^ (sh - 1) ≤ f.u * (m : ℚ) := by
              have h6 : (2 : ℚ) ^ (sh - 1) * (2 : ℚ) ^ f.prec ≤ (m : ℚ) := by
                have : 2 ^ (sh - 1) * 2 ^ f.prec ≤ m := by
                  rw [← pow_add]
                  have : sh - 1 + f.prec = bits m - 1 := by omega
                  rw [this]; exact hb1
                exact_mod_cast this
              have hup : f.u * (2 : ℚ) ^ f.prec = 1 := by
                unfold Format.u
                rw [← zpow_natCast, ← zpow_add₀ (by norm_num : (2 : ℚ) ≠ 0)]
                simp
              calc (2 : ℚ) ^ (sh - 1) = f.u * ((2 : ℚ) ^ (sh - 1) * (2 : ℚ) ^ f.prec) := by
                    rw [mul_comm ((2 : ℚ) ^ (sh - 1)), ← mul_assoc, hup, one_mul]
                _ ≤ f.u * (m : ℚ) := mul_le_mul_of_nonneg_left h6 hu
            have := mul_le_mul_of_nonneg_right h5 h2e.le
            linarith [this]
          · -- subnormal range: half a unit in the last place is `eta`
            have h7 : (2 : ℚ) ^ (sh - 1) * (2 : ℚ) ^ e = f.eta := by
              unfold Format.eta
              have : f.emin - 1 = ((sh - 1 : Nat) : Int) + e := by omega
              rw [this, zpow_add₀ (by norm_num : (2 : ℚ) ≠ 0), zpow_natCast]
            have : 0 ≤ f.u * ((m : ℚ) * (2 : ℚ) ^ e) := by positivity
            linarith
        calc |(q1 : ℚ) * (2 : ℚ) ^ sh - (m : ℚ)| * (2 : ℚ) ^ e
            ≤ (2 : ℚ) ^ (sh - 1) * (2 : ℚ) ^ e := mul_le_mul_of_nonneg_right habs h2e.le
          _ ≤ _ := hhalf

theorem isFin_iff (a : Fp) : a.isFin = true ↔ ∃ n m e, a = Fp.fin n m e := by
  cases a <;> simp [Fp.isFin]

theorem toRat_neg (a : Fp) : a.neg.toRat = -a.toRat := by
  cases a with
  | nan => simp [Fp.neg, Fp.toRat]
  | inf n => simp [Fp.neg, Fp.toRat]
  | fin n m e => cases n <;> simp [Fp.neg, Fp.toRat]

theorem isFin_neg (a : Fp) : a.neg.isFin = a.isFin := by
  cases a <;> rfl

/-- Rounding a number `v`: a finite result is within `u * |v| + eta` of `v` and
has the sign of `v`; numbers below the overflow threshold give a finite result. -/
theorem roundTo_cases (f : Format) (hf : f.emin ≤ f.emax) (neg : Bool) (m : Nat) (e : Int) :
    ((roundTo f neg m e).isFin = true →
        |(roundTo f neg m e).toRat - (Fp.fin neg m e).toRat|
            ≤ f.u * |(Fp.fin neg m e).toRat| + f.eta ∧
          (neg = false → 0 ≤ (roundTo f neg m e).toRat)) ∧
      (|(Fp.fin neg m e).toRat| < f.big → (roundTo f neg m e).isFin = true) := by
  rw [abs_toRat_fin]
  rcases roundTo_spec f hf neg m e with ⟨h1, h2⟩ | ⟨q, t, h1, h2⟩
  · constructor
    · intro h; rw [h1] at h; simp [Fp.isFin] at h
    · intro h; unfold Format.big at h; linarith
  · constructor
    · intro _
      rw [h1]
      refine ⟨h2, ?_⟩
      intro hn; subst hn
      rw [toRat_fin]; simp only [Bool.false_eq_true, if_false, one_mul]; positivity
    · intro _; rw [h1]; rfl

theorem scaled_toRat (n : Bool) (m : Nat) (e e0 : Int) (h : e0 ≤ e) :
    ((scaled n m e e0 : Int) : ℚ) * (2 : ℚ) ^ e0 = (Fp.fin n m e).toRat := by
  have hz : (2 : ℚ) ^ e = (2 : ℚ) ^ (e - e0).toNat * (2 : ℚ) ^ e0 := by
    have : e = (((e - e0).toNat : Nat) : Int) + e0 := by
      rw [Int.toNat_of_nonneg (by omega)]; ring
    conv_lhs => rw [this]
    rw [zpow_add₀ (by norm_num : (2 : ℚ) ≠ 0), zpow_natCast]
  rw [toRat_fin, hz]
  unfold scaled
  cases n <;> simp <;> ring

theorem natAbs_toRat (s : Int) (e0 : Int) :
    (Fp.fin (decide (s < 0)) s.natAbs e0).toRat = (s : ℚ) * (2 : ℚ) ^ e0 := by
  rw [toRat_fin]
  by_cases hs : s < 0
  · have h1 : ((s.natAbs : Nat) : ℚ) = -(s : ℚ) := by
      rw [Nat.cast_natAbs, abs_of_neg hs]; push_cast; rfl
    simp [hs, h1]
  · have h1 : ((s.natAbs : Nat) : ℚ) = (s : ℚ) := by
      rw [Nat.cast_natAbs, abs_of_nonneg (not_lt.1 hs)]
    simp [hs, h1]

/-- Addition of finite numbers: a finite result is within the rounding error of
the exact sum, and a sum below the overflow threshold gives a finite result. -/
theorem add_spec (f : Format) (hf : f.emin ≤ f.emax) (a b : Fp)
    (ha : a.isFin = true) (hb : b.isFin = true) :
    ((Fp.add f a b).isFin = true →
        |(Fp.add f a b).toRat - (a.toRat + b.toRat)| ≤ f.u * |a.toRat + b.toRat| + f.eta ∧
          (0 ≤ a.toRat + b.toRat → 0 ≤ (Fp.add f a b).toRat)) ∧
      (|a.toRat + b.toRat| < f.big → (Fp.add f a b).isFin = true) := by
  obtain ⟨n1, m1, e1, rfl⟩ := (isFin_iff a).1 ha
  obtain ⟨n2, m2, e2, rfl⟩ := (isFin_iff b).1 hb
  have hsum : ((scaled n1 m1 e1 (min e1 e2) + scaled n2 m2 e2 (min e1 e2) : Int) : ℚ)
      * (2 : ℚ) ^ (min e1 e2) = (Fp.fin n1 m1 e1).toRat + (Fp.fin n2 m2 e2).toRat := by
    push_cast
    rw [add_mul, scaled_toRat n1 m1 e1 _ (min_le_left _ _),
      scaled_toRat n2 m2 e2 _ (min_le_right _ _)]
  have hrhs : 0 ≤ f.u * |(Fp.fin n1 m1 e1).toRat + (Fp.fin n2 m2 e2).toRat| + f.eta := by
    have := u_nonneg f
    have := eta_nonneg f
    positivity
  simp only [Fp.add]
  by_cases hs : scaled n1 m1 e1 (min e1 e2) + scaled n2 m2 e2 (min e1 e2) = 0
  · simp only [hs, if_true]
    rw [hs] at hsum
    have h0 : (Fp.fin n1 m1 e1).toRat + (Fp.fin n2 m2 e2).toRat = 0 := by
      rw [← hsum]; simp
    refine ⟨fun _ => ⟨?_, fun _ => ?_⟩, fun _ => rfl⟩
    · rw [h0]; simpa [toRat_fin] using eta_nonneg f
    · simp [toRat_fin]
  · simp only [hs, if_false]
    obtain ⟨c1, c2⟩ := roundTo_cases f hf
      (decide (scaled n1 m1 e1 (min e1 e2) + scaled n2 m2 e2 (min e1 e2) < 0))
      (scaled n1 m1 e1 (min e1 e2) + scaled n2 m2 e2 (min e1 e2)).natAbs (min e1 e2)
    rw [natAbs_toRat, hsum] at c1 c2
    refine ⟨fun h => ⟨(c1 h).1, fun hnn => (c1 h).2 ?_⟩, c2⟩
    have hpos : (0 : ℚ) ≤ ((scaled n1 m1 e1 (min e1 e2) + scaled n2 m2 e2 (min e1 e2) : Int) : ℚ) := by
      have h2 := zpow_two_pos (min e1 e2)
      rw [← hsum] at hnn
      by_contra hcon
      push_neg at hcon
      have := mul_neg_of_neg_of_pos hcon h2
      linarith
    have : (0 : Int) ≤ scaled n1 m1 e1 (min e1 e2) + scaled n2 m2 e2 (min e1 e2) := by
      exact_mod_cast hpos
    simp only [decide_eq_false_iff_not, not_lt]
    exact this

theorem add_isFin_inputs (f : Format) (a b : Fp) (h : (Fp.add f a b).isFin = true) :
    a.isFin = true ∧ b.isFin = true := by
  cases a with
  | nan => cases b <;> simp [Fp.add, Fp.isFin] at h
  | inf n1 =>
    cases b with
    | nan => simp [Fp.add, Fp.isFin] at h
    | inf n2 =>
      simp only [Fp.add] at h
      split_ifs at h <;> simp [Fp.isFin] at h
    | fin _ _ _ => simp [Fp.add, Fp.isFin] at h
  | fin _ _ _ =>
    cases b with
    | nan => simp [Fp.add, Fp.isFin] at h
    | inf n2 => simp [Fp.add, Fp.isFin] at h
    | fin _ _ _ => exact ⟨rfl, rfl⟩

/-- Subtraction of finite numbers, like `add_spec`. -/
theorem sub_spec (f : Format) (hf : f.emin ≤ f.emax) (a b : Fp)
    (ha : a.isFin = true) (hb : b.isFin = true) :
    ((Fp.sub f a b).isFin = true →
        |(Fp.sub f a b).toRat - (a.toRat - b.toRat)| ≤ f.u * |a.toRat - b.toRat| + f.eta) ∧
      (|a.toRat - b.toRat| < f.big → (Fp.sub f a b).isFin = true) := by
  obtain ⟨c1, c2⟩ := add_spec f hf a b.neg ha (by rw [isFin_neg]; exact hb)
  rw [toRat_neg, ← sub_eq_add_neg] at c1 c2
  exact ⟨fun h => (c1 h).1, c2⟩

theorem sub_isFin_inputs (f : Format) (a b : Fp) (h : (Fp.sub f a b).isFin = true) :
    a.isFin = true ∧ b.isFin = true := by
  obtain ⟨h1, h2⟩ := add_isFin_inputs f a b.neg h
  rw [isFin_neg] at h2
  exact ⟨h1, h2⟩

/-- Conversion of a finite number to a format. -/
theorem cvt_spec (f : Format) (hf : f.emin ≤ f.emax) (a : Fp) (ha : a.isFin = true) :
    ((Fp.cvt f a).isFin = true →
        |(Fp.cvt f a).toRat - a.toRat| ≤ f.u * |a.toRat| + f.eta) ∧
      (|a.toRat| < f.big → (Fp.cvt f a).isFin = true) := by
  obtain ⟨n, m, e, rfl⟩ := (isFin_iff a).1 ha
  obtain ⟨c1, c2⟩ := roundTo_cases f hf n m e
  exact ⟨fun h => (c1 h).1, c2⟩

theorem cvt_isFin_input (f : Format) (a : Fp) (h : (Fp.cvt f a).isFin = true) :
    a.isFin = true := by
  cases a <;> simp_all [Fp.cvt, Fp.isFin]

/-- The square of a finite number in a format. -/
theorem mul_self_spec (f : Format) (hf : f.emin ≤ f.emax) (a : Fp) (ha : a.isFin = true) :
    ((Fp.mul f a a).isFin = true →
        |(Fp.mul f a a).toRat - a.toRat * a.toRat| ≤ f.u * (a.toRat * a.toRat) + f.eta ∧
          0 ≤ (Fp.mul f a a).toRat) ∧
      (a.toRat * a.toRat < f.big → (Fp.mul f a a).isFin = true) := by
  obtain ⟨n, m, e, rfl⟩ := (isFin_iff a).1 ha
  have hv : (Fp.fin (xor n n) (m * m) (e + e)).toRat
      = (Fp.fin n m e).toRat * (Fp.fin n m e).toRat := by
    rw [toRat_fin, toRat_fin, zpow_add₀ (by norm_num : (2 : ℚ) ≠ 0)]
    cases n <;> simp <;> ring
  have hnn : 0 ≤ (Fp.fin n m e).toRat * (Fp.fin n m e).toRat := mul_self_nonneg _
  obtain ⟨c1, c2⟩ := roundTo_cases f hf (xor n n) (m * m) (e + e)
  rw [hv, abs_of_nonneg hnn] at c1 c2
  simp only [Fp.mul]
  exact ⟨fun h => ⟨(c1 h).1, (c1 h).2 (by simp)⟩, c2⟩

theorem mul_self_isFin_input (f : Format) (a : Fp) (h : (Fp.mul f a a).isFin = true) :
    a.isFin = true := by
  cases a <;> simp_all [Fp.mul, Fp.isFin]

/-- Comparison of finite numbers is comparison of their values. -/
theorem lt_spec (a b : Fp) (ha : a.isFin = true) (hb : b.isFin = true) :
    Fp.lt a b = decide (a.toRat < b.toRat) := by
  obtain ⟨n1, m1, e1, rfl⟩ := (isFin_iff a).1 ha
  obtain ⟨n2, m2, e2, rfl⟩ := (isFin_iff b).1 hb
  simp only [Fp.lt]
  have h2 := zpow_two_pos (min e1 e2)
  rw [← scaled_toRat n1 m1 e1 _ (min_le_left e1 e2), ← scaled_toRat n2 m2 e2 _ (min_le_right e1 e2)]
  congr 1
  rw [mul_lt_mul_right h2]
  simp

theorem isqrtAux_spec (n : Nat) : ∀ (k r : Nat), r * r ≤ n → n < (r + 2 ^ k) * (r + 2 ^ k) →
    isqrtAux n k r * isqrtAux n k r ≤ n ∧ n < (isqrtAux n k r + 1) * (isqrtAux n k r + 1) := by
  intro k
  induction k with
  | zero => intro r h1 h2; simpa [isqrtAux] using ⟨h1, h2⟩
  | succ k ih =>
    intro r h1 h2
    simp only [isqrtAux]
    split_ifs with hc
    · refine ih _ hc ?_
      have : r + 2 ^ k + 2 ^ k = r + 2 ^ (k + 1) := by rw [pow_succ]; ring
      rw [this]; exact h2
    · exact ih _ h1 (not_le.1 hc)

theorem isqrt_spec (n : Nat) :
    isqrt n * isqrt n ≤ n ∧ n < (isqrt n + 1) * (isqrt n + 1) := by
  unfold isqrt
  refine isqrtAux_spec n _ 0 (Nat.zero_le _) ?_
  rw [Nat.zero_add, ← pow_add]
  rcases Nat.eq_zero_or_pos n with h | h
  · subst h; positivity
  · obtain ⟨_, h2, _⟩ := bits_spec n h
    refine lt_of_lt_of_le h2 (Nat.pow_le_pow_right (by norm_num) ?_)
    omega

theorem sqrt_proxy_bounds (w s sticky K : Nat) (hK : 0 < K) (hKs : K ≤ s)
    (h1 : s * s ≤ w) (h2 : w < (s + 1) * (s + 1))
    (hst : sticky = if s * s = w then 0 else 1) :
    (K : ℚ) * (4 * (w : ℚ)) ≤ ((2 * s + sticky : Nat) : ℚ) ^ 2 * ((K : ℚ) + 1) ∧
      (K : ℚ) * ((2 * s + sticky : Nat) : ℚ) ^ 2 ≤ 4 * (w : ℚ) * ((K : ℚ) + 1) := by
  have hK' : (0 : ℚ) < (K : ℚ) := by exact_mod_cast hK
  have hKs' : (K : ℚ) ≤ (s : ℚ) := by exact_mod_cast hKs
  have h1' : (s : ℚ) * s ≤ (w : ℚ) := by exact_mod_cast h1
  split_ifs at hst with hc
  · subst hst
    have hw : (w : ℚ) = (s : ℚ) * s := by exact_mod_cast hc.symm
    push_cast
    rw [hw]
    constructor <;> nlinarith [mul_nonneg hK'.le (mul_self_nonneg (s : ℚ))]
  · subst hst
    have h3 : s * s + 1 ≤ w := by
      rcases Nat.lt_or_ge (s * s) w with h | h
      · exact h
      · exact absurd (Nat.le_antisymm h1 h) hc
    have h4 : w ≤ s * s + 2 * s := by nlinarith
    have h3' : (s : ℚ) * s + 1 ≤ (w : ℚ) := by exact_mod_cast h3
    have h4' : (w : ℚ) ≤ (s : ℚ) * s + 2 * s := by exact_mod_cast h4
    have hs0 : (0 : ℚ) < (s : ℚ) := lt_of_lt_of_le hK' hKs'
    push_cast
    constructor
    · nlinarith [mul_nonneg hK'.le hs0.le, mul_nonneg hs0.le hs0.le,
        mul_le_mul_of_nonneg_right hKs' hs0.le]
    · nlinarith [mul_nonneg hK'.le hs0.le, mul_nonneg hs0.le hs0.le,
        mul_le_mul_of_nonneg_right hKs' hs0.le]

/-- Square root of a finite non-negative number `a`: there is a proxy `v` whose
square is within the factor `1 + u / 4` of `a`, a finite result is within the
rounding error of `v`, and a proxy below the overflow threshold gives a finite
result. -/
theorem sqrt_spec (f : Format) (hf : f.emin ≤ f.emax) (a : Fp) (ha : a.isFin = true)
    (hnn : 0 ≤ a.toRat) :
    ∃ v : ℚ, 0 ≤ v ∧ a.toRat ≤ v ^ 2 * (1 + f.u / 4) ∧ v ^ 2 ≤ a.toRat * (1 + f.u / 4) ∧
      ((Fp.sqrt f a).isFin = true →
          |(Fp.sqrt f a).toRat - v| ≤ f.u * v + f.eta ∧ 0 ≤ (Fp.sqrt f a).toRat) ∧
      (v < f.big → (Fp.sqrt f a).isFin = true) := by
  obtain ⟨n, m, e, rfl⟩ := (isFin_iff a).1 ha
  have hu := u_nonneg f
  by_cases hm : m = 0
  · subst hm
    refine ⟨0, le_refl _, by simp [toRat_fin], by simp [toRat_fin], ?_, ?_⟩
    · intro _
      simp only [Fp.sqrt, if_true, toRat_fin]
      simpa using eta_nonneg f
    · intro _; simp [Fp.sqrt, Fp.isFin]
  · have hmpos : (0 : ℚ) < (m : ℚ) := by exact_mod_cast Nat.pos_of_ne_zero hm
    have hn : n = false := by
      cases n with
      | false => rfl
      | true =>
        exfalso
        rw [toRat_fin] at hnn
        have := mul_pos hmpos (zpow_two_pos e)
        simp only [if_true] at hnn
        linarith
    subst hn
    obtain ⟨k, hk, hkeven, hkge⟩ : ∃ k : Nat,
        (if (e - ((2 * f.prec + 4 : Nat) : Int)) % 2 = 0 then 2 * f.prec + 4
          else 2 * f.prec + 4 + 1) = k ∧ (e - (k : Int)) % 2 = 0 ∧ 2 * f.prec + 4 ≤ k := by
      by_cases hc : (e - ((2 * f.prec + 4 : Nat) : Int)) % 2 = 0
      · exact ⟨2 * f.prec + 4, if_pos hc, hc, le_refl _⟩
      · refine ⟨2 * f.prec + 4 + 1, if_neg hc, ?_, by omega⟩
        push_cast at hc ⊢
        omega
    obtain ⟨s1, s2⟩ := isqrt_spec (m * 2 ^ k)
    -- the root has more than `prec + 2` digits
    have hKs : 2 ^ (f.prec + 2) ≤ isqrt (m * 2 ^ k) := by
      have hw : 2 ^ (f.prec + 2) * 2 ^ (f.prec + 2) ≤ m * 2 ^ k := by
        rw [← pow_add]
        calc 2 ^ (f.prec + 2 + (f.prec + 2)) ≤ 2 ^ k :=
              Nat.pow_le_pow_right (by norm_num) (by omega)
          _ ≤ m * 2 ^ k := Nat.le_mul_of_pos_left _ (Nat.pos_of_ne_zero hm)
      by_contra hcon
      push_neg at hcon
      have : (isqrt (m * 2 ^ k) + 1) * (isqrt (m * 2 ^ k) + 1)
          ≤ 2 ^ (f.prec + 2) * 2 ^ (f.prec + 2) := Nat.mul_le_mul hcon hcon
      omega
    obtain ⟨b1, b2⟩ := sqrt_proxy_bounds (m * 2 ^ k) (isqrt (m * 2 ^ k))
      (if isqrt (m * 2 ^ k) * isqrt (m * 2 ^ k) = m * 2 ^ k then 0 else 1)
      (2 ^ (f.prec + 2)) (by positivity) hKs s1 s2 rfl
    set sticky : Nat := if isqrt (m * 2 ^ k) * isqrt (m * 2 ^ k) = m * 2 ^ k then 0 else 1
      with hsticky
    set A : Nat := 2 * isqrt (m * 2 ^ k) + sticky with hA
    set h' : Int := (e - (k : Int)) / 2 - 1 with hh'
    have hsq : Fp.sqrt f (Fp.fin false m e) = roundTo f false A h' := by
      simp only [Fp.sqrt, hm, if_false, Bool.false_eq_true]
      rw [hk]
    have hek : e = (k : Int) + (2 * h' + 2) := by omega
    have hK : f.u / 4 * ((2 ^ (f.prec + 2) : Nat) : ℚ) = 1 := by
      unfold Format.u
      push_cast
      rw [pow_add, zpow_neg, zpow_natCast]
      have : (2 : ℚ) ^ f.prec ≠ 0 := by positivity
      field_simp
      ring
    have hKpos : (0 : ℚ) < ((2 ^ (f.prec + 2) : Nat) : ℚ) := by positivity
    -- the value of the operand is `4 * w * (2 ^ h') ^ 2`
    have hval : (Fp.fin false m e).toRat
        = 4 * ((m * 2 ^ k : Nat) : ℚ) * ((2 : ℚ) ^ h') ^ 2 := by
      rw [toRat_fin]
      simp only [Bool.false_eq_true, if_false, one_mul]
      have : (2 : ℚ) ^ e = (2 : ℚ) ^ k * (4 * ((2 : ℚ) ^ h') ^ 2) := by
        conv_lhs => rw [hek]
        rw [zpow_add₀ (by norm_num : (2 : ℚ) ≠ 0), zpow_add₀ (by norm_num : (2 : ℚ) ≠ 0),
          zpow_natCast, two_mul, zpow_add₀ (by norm_num : (2 : ℚ) ≠ 0)]
        norm_num
        ring
      rw [this]
      push_cast
      ring
    have hv : (Fp.fin false A h').toRat = (A : ℚ) * (2 : ℚ) ^ h' := by
      rw [toRat_fin]; simp
    have hp2 : (0 : ℚ) < ((2 : ℚ) ^ h') ^ 2 := by positivity
    refine ⟨(A : ℚ) * (2 : ℚ) ^ h', by positivity, ?_, ?_, ?_, ?_⟩
    · rw [hval, mul_pow]
      have e1 : (1 + f.u / 4) * ((2 ^ (f.prec + 2) : Nat) : ℚ)
          = ((2 ^ (f.prec + 2) : Nat) : ℚ) + 1 := by rw [add_mul, hK, one_mul]
      have : ((2 ^ (f.prec + 2) : Nat) : ℚ) * (4 * ((m * 2 ^ k : Nat) : ℚ))
          ≤ ((2 ^ (f.prec + 2) : Nat) : ℚ) * ((A : ℚ) ^ 2 * (1 + f.u / 4)) := by
        calc _ ≤ (A : ℚ) ^ 2 * (((2 ^ (f.prec + 2) : Nat) : ℚ) + 1) := b1
          _ = _ := by rw [← e1]; ring
      have h3 := le_of_mul_le_mul_left this hKpos
      have := mul_le_mul_of_nonneg_right h3 hp2.le
      linarith
    · rw [hval, mul_pow]
      have e1 : (1 + f.u / 4) * ((2 ^ (f.prec + 2) : Nat) : ℚ)
          = ((2 ^ (f.prec + 2) : Nat) : ℚ) + 1 := by rw [add_mul, hK, one_mul]
      have : ((2 ^ (f.prec + 2) : Nat) : ℚ) * (A : ℚ) ^ 2
          ≤ ((2 ^ (f.prec + 2) : Nat) : ℚ) * (4 * ((m * 2 ^ k : Nat) : ℚ) * (1 + f.u / 4)) := by
        calc _ ≤ 4 * ((m * 2 ^ k : Nat) : ℚ) * (((2 ^ (f.prec + 2) : Nat) : ℚ) + 1) := b2
          _ = _ := by rw [← e1]; ring
      have h3 := le_of_mul_le_mul_left this hKpos
      have := mul_le_mul_of_nonneg_right h3 hp2.le
      linarith
    · intro hfin
      obtain ⟨c1, _⟩ := roundTo_cases f hf false A h'
      rw [hsq] at hfin ⊢
      obtain ⟨d1, d2⟩ := c1 hfin
      rw [hv, abs_of_nonneg (show (0 : ℚ) ≤ (A : ℚ) * (2 : ℚ) ^ h' by positivity)] at d1
      exact ⟨d1, d2 rfl⟩
    · intro hsmall
      obtain ⟨_, c2⟩ := roundTo_cases f hf false A h'
      rw [hsq]
      apply c2
      rw [hv, abs_of_nonneg (show (0 : ℚ) ≤ (A : ℚ) * (2 : ℚ) ^ h' by positivity)]
      exact hsmall

theorem sqrt_isFin_input (f : Format) (a : Fp) (h : (Fp.sqrt f a).isFin = true) :
    a.isFin = true ∧ 0 ≤ a.toRat := by
  cases a with
  | nan => simp [Fp.sqrt, Fp.isFin] at h
  | inf n => cases n <;> simp [Fp.sqrt, Fp.isFin] at h
  | fin n m e =>
    refine ⟨rfl, ?_⟩
    by_cases hm : m = 0
    · subst hm; simp [toRat_fin]
    · cases n with
      | false => rw [toRat_fin]; simp only [Bool.false_eq_true, if_false, one_mul]; positivity
      | true => simp [Fp.sqrt, hm, Fp.isFin] at h

theorem lt_true_cases (a b : Fp) (hb : b.isFin = true) (h : Fp.lt a b = true) :
    a = Fp.inf true ∨ (a.isFin = true ∧ a.toRat < b.toRat) := by
  cases a with
  | nan => simp [Fp.lt] at h
  | inf n =>
    obtain ⟨n2, m2, e2, rfl⟩ := (isFin_iff b).1 hb
    simp only [Fp.lt] at h
    left; rw [h]
  | fin n m e =>
    right
    refine ⟨rfl, ?_⟩
    rw [lt_spec (Fp.fin n m e) b rfl hb] at h
    exact of_decide_eq_true h

theorem roundTo_false_ne (f : Format) (hf : f.emin ≤ f.emax) (m : Nat) (e : Int) :
    roundTo f false m e ≠ Fp.inf true := by
  intro h
  rcases roundTo_spec f hf false m e with ⟨h1, _⟩ | ⟨q, t, h1, _⟩
  · rw [h1] at h; cases h
  · rw [h1] at h; cases h

theorem sqrt_ne_neg_inf (f : Format) (hf : f.emin ≤ f.emax) (a : Fp) :
    Fp.sqrt f a ≠ Fp.inf true := by
  cases a with
  | nan => simp [Fp.sqrt]
  | inf n => cases n <;> simp [Fp.sqrt]
  | fin n m e =>
    by_cases hm : m = 0
    · simp [Fp.sqrt, hm]
    · cases n with
      | true => simp [Fp.sqrt, hm]
      | false =>
        intro h
        simp only [Fp.sqrt, hm, if_false, Bool.false_eq_true] at h
        exact roundTo_false_ne f hf _ _ h

/-! ## The arithmetic of `reach_target` -/

theorem binary32_le : binary32.emin ≤ binary32.emax := by decide

theorem binary64_le : binary64.emin ≤ binary64.emax := by decide

theorem u32_eq : binary32.u = 1 / 16777216 := by
  norm_num [Format.u, binary32]

theorem u64_eq : binary64.u = 1 / 9007199254740992 := by
  norm_num [Format.u, binary64]

theorem eta32_le : binary32.eta ≤ 1 / 1073741824 := by
  have h : binary32.eta ≤ (2 : ℚ) ^ (-30 : Int) := by
    unfold Format.eta
    exact zpow_le_zpow_right₀ (by norm_num) (by decide)
  calc binary32.eta ≤ (2 : ℚ) ^ (-30 : Int) := h
    _ = 1 / 1073741824 := by norm_num

theorem eta64_le : binary64.eta ≤ 1 / 1073741824 := by
  have h : binary64.eta ≤ (2 : ℚ) ^ (-30 : Int) := by
    unfold Format.eta
    exact zpow_le_zpow_right₀ (by norm_num) (by decide)
  calc binary64.eta ≤ (2 : ℚ) ^ (-30 : Int) := h
    _ = 1 / 1073741824 := by norm_num

theorem big32_ge : 1 ≤ binary32.big := by
  unfold Format.big
  exact one_le_zpow₀ (by norm_num) (by decide)

theorem big64_ge : 1 ≤ binary64.big := by
  unfold Format.big
  exact one_le_zpow₀ (by norm_num) (by decide)

/-- One coordinate difference, from the result: a finite single-precision
difference of magnitude at most `1 / 2` comes from finite coordinates and is
within `2 ^ (-24)` of the exact difference. -/
theorem axis_backward (a b : Fp)
    (hfin : (Fp.cvt binary32 (Fp.sub binary64 a b)).isFin = true)
    (hsmall : |(Fp.cvt binary32 (Fp.sub binary64 a b)).toRat| ≤ 1 / 2) :
    a.isFin = true ∧ b.isFin = true ∧
      |(Fp.cvt binary32 (Fp.sub binary64 a b)).toRat - (a.toRat - b.toRat)| ≤ 1 / 16777216 := by
  have h64 := cvt_isFin_input _ _ hfin
  obtain ⟨ha, hb⟩ := sub_isFin_inputs _ _ _ h64
  refine ⟨ha, hb, ?_⟩
  have e1 := (sub_spec binary64 binary64_le a b ha hb).1 h64
  have e2 := (cvt_spec binary32 binary32_le _ h64).1 hfin
  rw [u64_eq] at e1
  rw [u32_eq] at e2
  have n1 := eta32_le
  have n2 := eta64_le
  have t1 : |(Fp.sub binary64 a b).toRat| - |(Fp.cvt binary32 (Fp.sub binary64 a b)).toRat|
      ≤ |(Fp.cvt binary32 (Fp.sub binary64 a b)).toRat - (Fp.sub binary64 a b).toRat| := by
    rw [abs_sub_comm (Fp.cvt binary32 (Fp.sub binary64 a b)).toRat]
    exact abs_sub_abs_le_abs_sub _ _
  have t2 : |a.toRat - b.toRat| - |(Fp.sub binary64 a b).toRat|
      ≤ |(Fp.sub binary64 a b).toRat - (a.toRat - b.toRat)| := by
    rw [abs_sub_comm (Fp.sub binary64 a b).toRat]
    exact abs_sub_abs_le_abs_sub _ _
  have t3 := abs_sub_le (Fp.cvt binary32 (Fp.sub binary64 a b)).toRat
    (Fp.sub binary64 a b).toRat (a.toRat - b.toRat)
  have p1 := abs_nonneg (Fp.sub binary64 a b).toRat
  have p2 := abs_nonneg (a.toRat - b.toRat)
  linarith

/-- One coordinate difference, from the operands: finite coordinates at most
`1 / 2` apart give a finite single-precision difference within `2 ^ (-24)` of
the exact one. -/
theorem axis_forward (a b : Fp) (ha : a.isFin = true) (hb : b.isFin = true)
    (hsmall : |a.toRat - b.toRat| ≤ 1 / 2) :
    (Fp.cvt binary32 (Fp.sub binary64 a b)).isFin = true ∧
      |(Fp.cvt binary32 (Fp.sub binary64 a b)).toRat - (a.toRat - b.toRat)| ≤ 1 / 16777216 := by
  obtain ⟨s1, s2⟩ := sub_spec binary64 binary64_le a b ha hb
  have h64 : (Fp.sub binary64 a b).isFin = true := s2 (by linarith [big64_ge])
  have e1 := s1 h64
  rw [u64_eq] at e1
  have n1 := eta32_le
  have n2 := eta64_le
  have t2 := abs_sub_abs_le_abs_sub (Fp.sub binary64 a b).toRat (a.toRat - b.toRat)
  obtain ⟨c1, c2⟩ := cvt_spec binary32 binary32_le _ h64
  have hfin : (Fp.cvt binary32 (Fp.sub binary64 a b)).isFin = true :=
    c2 (by linarith [big32_ge])
  have e2 := c1 hfin
  rw [u32_eq] at e2
  have t3 := abs_sub_le (Fp.cvt binary32 (Fp.sub binary64 a b)).toRat
    (Fp.sub binary64 a b).toRat (a.toRat - b.toRat)
  exact ⟨hfin, by linarith⟩

/-- A square moves by at most `2 ^ (-23)` when its root, of magnitude at most
`1 / 2`, moves by at most `2 ^ (-24)`. -/
theorem sq_close (x a : ℚ) (hx : |x| ≤ 1 / 2) (h : |x - a| ≤ 1 / 16777216) :
    |x ^ 2 - a ^ 2| ≤ 1 / 8388608 := by
  rw [abs_le] at hx h ⊢
  constructor <;> nlinarith

/-- The single-precision sum of squares, from the result: a finite sum of at
most `1 / 5` comes from finite terms, is non-negative and is within `2 ^ (-23)`
of the exact sum of squares. -/
theorem sumsq_backward (dx dy dz : Fp)
    (hfin : (Fp.add binary32 (Fp.add binary32 (Fp.mul binary32 dx dx) (Fp.mul binary32 dy dy))
      (Fp.mul binary32 dz dz)).isFin = true)
    (hsmall : (Fp.add binary32 (Fp.add binary32 (Fp.mul binary32 dx dx) (Fp.mul binary32 dy dy))
      (Fp.mul binary32 dz dz)).toRat ≤ 1 / 5) :
    dx.isFin = true ∧ dy.isFin = true ∧ dz.isFin = true ∧
      |(Fp.add binary32 (Fp.add binary32 (Fp.mul binary32 dx dx) (Fp.mul binary32 dy dy))
          (Fp.mul binary32 dz dz)).toRat
        - (dx.toRat ^ 2 + dy.toRat ^ 2 + dz.toRat ^ 2)| ≤ 1 / 8388608 := by
  obtain ⟨hS1, hZ⟩ := add_isFin_inputs _ _ _ hfin
  obtain ⟨hX, hY⟩ := add_isFin_inputs _ _ _ hS1
  have hx := mul_self_isFin_input _ _ hX
  have hy := mul_self_isFin_input _ _ hY
  have hz := mul_self_isFin_input _ _ hZ
  refine ⟨hx, hy, hz, ?_⟩
  obtain ⟨ex, px⟩ := (mul_self_spec binary32 binary32_le dx hx).1 hX
  obtain ⟨ey, py⟩ := (mul_self_spec binary32 binary32_le dy hy).1 hY
  obtain ⟨ez, pz⟩ := (mul_self_spec binary32 binary32_le dz hz).1 hZ
  obtain ⟨e1, p1⟩ := (add_spec binary32 binary32_le _ _ hX hY).1 hS1
  obtain ⟨e2, _⟩ := (add_spec binary32 binary32_le _ _ hS1 hZ).1 hfin
  have q1 := p1 (by linarith)
  rw [abs_of_nonneg (add_nonneg px py)] at e1
  rw [abs_of_nonneg (add_nonneg q1 pz)] at e2
  rw [u32_eq] at ex ey ez e1 e2
  have n1 := eta32_le
  have sx : dx.toRat ^ 2 = dx.toRat * dx.toRat := sq _
  have sy : dy.toRat ^ 2 = dy.toRat * dy.toRat := sq _
  have sz : dz.toRat ^ 2 = dz.toRat * dz.toRat := sq _
  have nx := mul_self_nonneg dx.toRat
  have ny := mul_self_nonneg dy.toRat
  have nz := mul_self_nonneg dz.toRat
  rw [sx, sy, sz]
  rw [abs_le] at ex ey ez e1 e2 ⊢
  constructor <;> linarith

/-- The single-precision sum of squares, from the terms: finite terms whose
exact squares sum to at most `1 / 5` give a finite, non-negative sum within
`2 ^ (-23)` of the exact one. -/
theorem sumsq_forward (dx dy dz : Fp) (hx : dx.isFin = true) (hy : dy.isFin = true)
    (hz : dz.isFin = true) (hsmall : dx.toRat ^ 2 + dy.toRat ^ 2 + dz.toRat ^ 2 ≤ 1 / 5) :
    (Fp.add binary32 (Fp.add binary32 (Fp.mul binary32 dx dx) (Fp.mul binary32 dy dy))
        (Fp.mul binary32 dz dz)).isFin = true ∧
      0 ≤ (Fp.add binary32 (Fp.add binary32 (Fp.mul binary32 dx dx) (Fp.mul binary32 dy dy))
        (Fp.mul binary32 dz dz)).toRat ∧
      |(Fp.add binary32 (Fp.add binary32 (Fp.mul binary32 dx dx) (Fp.mul binary32 dy dy))
          (Fp.mul binary32 dz dz)).toRat
        - (dx.toRat ^ 2 + dy.toRat ^ 2 + dz.toRat ^ 2)| ≤ 1 / 8388608 := by
  have sx : dx.toRat ^ 2 = dx.toRat * dx.toRat := sq _
  have sy : dy.toRat ^ 2 = dy.toRat * dy.toRat := sq _
  have sz : dz.toRat ^ 2 = dz.toRat * dz.toRat := sq _
  have nx := mul_self_nonneg dx.toRat
  have ny := mul_self_nonneg dy.toRat
  have nz := mul_self_nonneg dz.toRat
  rw [sx, sy, sz] at hsmall ⊢
  have n1 := eta32_le
  have b1 := big32_ge
  obtain ⟨mx1, mx2⟩ := mul_self_spec binary32 binary32_le dx hx
  obtain ⟨my1, my2⟩ := mul_self_spec binary32 binary32_le dy hy
  obtain ⟨mz1, mz2⟩ := mul_self_spec binary32 binary32_le dz hz
  have hX := mx2 (by linarith)
  have hY := my2 (by linarith)
  have hZ := mz2 (by linarith)
  obtain ⟨ex, px⟩ := mx1 hX
  obtain ⟨ey, py⟩ := my1 hY
  obtain ⟨ez, pz⟩ := mz1 hZ
  rw [u32_eq] at ex ey ez
  rw [abs_le] at ex ey ez
  obtain ⟨a1, a2⟩ := add_spec binary32 binary32_le _ _ hX hY
  have hS1 := a2 (by rw [abs_of_nonneg (add_nonneg px py)]; linarith)
  obtain ⟨e1, p1⟩ := a1 hS1
  have q1 := p1 (by linarith)
  rw [abs_of_nonneg (add_nonneg px py), u32_eq, abs_le] at e1
  obtain ⟨c1, c2⟩ := add_spec binary32 binary32_le _ _ hS1 hZ
  have hS := c2 (by rw [abs_of_nonneg (add_nonneg q1 pz)]; linarith)
  obtain ⟨e2, p2⟩ := c1 hS
  have q2 := p2 (by linarith)
  rw [abs_of_nonneg (add_nonneg q1 pz), u32_eq, abs_le] at e2
  refine ⟨hS, q2, ?_⟩
  rw [abs_le]
  constructor <;> linarith

theorem dist_thres_eq : dist_thres = Fp.fin false 13421773 (-25) := by decide

theorem dist_thres_toRat : dist_thres.toRat = 13421773 / 33554432 := by
  rw [dist_thres_eq, toRat_fin]
  norm_num

/-- The square root and the comparison, from the result: when the computed
distance is below `dist_thres`, the single-precision sum of squares is finite,
non-negative and at most `0.16000005`. -/
theorem root_backward (s : Fp) (h : Fp.lt (Fp.sqrt binary32 s) dist_thres = true) :
    s.isFin = true ∧ 0 ≤ s.toRat ∧ s.toRat ≤ 16000005 / 100000000 := by
  have hthr : dist_thres.isFin = true := by rw [dist_thres_eq]; rfl
  rcases lt_true_cases _ _ hthr h with h1 | ⟨h1, h2⟩
  · exact absurd h1 (sqrt_ne_neg_inf binary32 binary32_le s)
  · obtain ⟨hs, hnn⟩ := sqrt_isFin_input _ _ h1
    refine ⟨hs, hnn, ?_⟩
    obtain ⟨v, v0, v1, _, v3, _⟩ := sqrt_spec binary32 binary32_le s hs hnn
    obtain ⟨e1, _⟩ := v3 h1
    rw [dist_thres_toRat] at h2
    rw [u32_eq] at e1 v1
    have n1 := eta32_le
    rw [abs_le] at e1
    have hv : v ≤ 40000004 / 100000000 := by linarith
    have hvv : v ^ 2 ≤ (40000004 / 100000000) ^ 2 := by
      exact pow_le_pow_left₀ v0 hv 2
    nlinarith

/-- The square root and the comparison, from the operand: a finite,
non-negative single-precision sum of squares of at most `0.15999995` gives a
computed distance below `dist_thres`. -/
theorem root_forward (s : Fp) (hs : s.isFin = true) (hnn : 0 ≤ s.toRat)
    (hsmall : s.toRat ≤ 15999995 / 100000000) :
    Fp.lt (Fp.sqrt binary32 s) dist_thres = true := by
  have hthr : dist_thres.isFin = true := by rw [dist_thres_eq]; rfl
  obtain ⟨v, v0, _, v2, v3, v4⟩ := sqrt_spec binary32 binary32_le s hs hnn
  rw [u32_eq] at v2 v3
  have n1 := eta32_le
  have hv : v ≤ 39999996 / 100000000 := by
    by_contra hcon
    push_neg at hcon
    have : (39999996 / 100000000 : ℚ) ^ 2 < v ^ 2 := by
      exact pow_lt_pow_left₀ hcon (by norm_num) (by norm_num)
    nlinarith
  have hfin := v4 (by linarith [big32_ge])
  obtain ⟨e1, _⟩ := v3 hfin
  rw [abs_le] at e1
  rw [lt_spec _ _ hfin hthr, dist_thres_toRat]
  apply decide_eq_true
  linarith

theorem abs_le_half_of_sq_le (x : ℚ) (h : x ^ 2 ≤ 1 / 5) : |x| ≤ 1 / 2 := by
  rw [abs_le]
  constructor <;> nlinarith

/-- Soundness of `reach_target` up to rounding: when it returns true, the
position coordinates are finite and the exact squared distance is below
`(0.4 + 10 ^ (-6)) ^ 2`. -/
theorem reach_target_sound (p t : Pose) (h : AddMarkers.reach_target p t = true) :
    p.position.isFin = true ∧ t.position.isFin = true ∧
      distSq p t < (4 / 10 + 1 / 1000000) ^ 2 := by
  simp only [AddMarkers.reach_target] at h
  obtain ⟨hs, _, hle⟩ := root_backward _ h
  obtain ⟨hx, hy, hz, hsum⟩ := sumsq_backward _ _ _ hs (by linarith)
  rw [abs_le] at hsum
  have nx := sq_nonneg (Fp.cvt binary32 (Fp.sub binary64 p.position.x t.position.x)).toRat
  have ny := sq_nonneg (Fp.cvt binary32 (Fp.sub binary64 p.position.y t.position.y)).toRat
  have nz := sq_nonneg (Fp.cvt binary32 (Fp.sub binary64 p.position.z t.position.z)).toRat
  have bx := abs_le_half_of_sq_le _ (by linarith :
    (Fp.cvt binary32 (Fp.sub binary64 p.position.x t.position.x)).toRat ^ 2 ≤ 1 / 5)
  have by' := abs_le_half_of_sq_le _ (by linarith :
    (Fp.cvt binary32 (Fp.sub binary64 p.position.y t.position.y)).toRat ^ 2 ≤ 1 / 5)
  have bz := abs_le_half_of_sq_le _ (by linarith :
    (Fp.cvt binary32 (Fp.sub binary64 p.position.z t.position.z)).toRat ^ 2 ≤ 1 / 5)
  obtain ⟨fx1, fx2, ex⟩ := axis_backward _ _ hx bx
  obtain ⟨fy1, fy2, ey⟩ := axis_backward _ _ hy by'
  obtain ⟨fz1, fz2, ez⟩ := axis_backward _ _ hz bz
  have cx := sq_close _ _ bx ex
  have cy := sq_close _ _ by' ey
  have cz := sq_close _ _ bz ez
  rw [abs_le] at cx cy cz
  refine ⟨by simp [Point.isFin, fx1, fy1, fz1], by simp [Point.isFin, fx2, fy2, fz2], ?_⟩
  unfold distSq
  norm_num
  linarith

/-- Completeness of `reach_target` up to rounding: for finite position
coordinates at exact squared distance below `(0.4 - 10 ^ (-6)) ^ 2` it returns
true. -/
theorem reach_target_complete (p t : Pose) (hp : p.position.isFin = true)
    (ht : t.position.isFin = true) (h : distSq p t < (4 / 10 - 1 / 1000000) ^ 2) :
    AddMarkers.reach_target p t = true := by
  simp only [Point.isFin, Bool.and_eq_true] at hp ht
  obtain ⟨⟨px, py⟩, pz⟩ := hp
  obtain ⟨⟨tx, ty⟩, tz⟩ := ht
  unfold distSq at h
  norm_num at h
  have nx := sq_nonneg (p.position.x.toRat - t.position.x.toRat)
  have ny := sq_nonneg (p.position.y.toRat - t.position.y.toRat)
  have nz := sq_nonneg (p.position.z.toRat - t.position.z.toRat)
  have bx := abs_le_half_of_sq_le (p.position.x.toRat - t.position.x.toRat) (by linarith)
  have by' := abs_le_half_of_sq_le (p.position.y.toRat - t.position.y.toRat) (by linarith)
  have bz := abs_le_half_of_sq_le (p.position.z.toRat - t.position.z.toRat) (by linarith)
  obtain ⟨hx, ex⟩ := axis_forward _ _ px tx bx
  obtain ⟨hy, ey⟩ := axis_forward _ _ py ty by'
  obtain ⟨hz, ez⟩ := axis_forward _ _ pz tz bz
  rw [abs_sub_comm] at ex ey ez
  have cx := sq_close _ _ bx ex
  have cy := sq_close _ _ by' ey
  have cz := sq_close _ _ bz ez
  rw [abs_le] at cx cy cz
  obtain ⟨hs, hnn, hsum⟩ := sumsq_forward _ _ _ hx hy hz (by linarith)
  rw [abs_le] at hsum
  simp only [AddMarkers.reach_target]
  exact root_forward _ hs hnn (by linarith)

/-! ## The members no callback assigns -/

theorem goalCallback_unassigned (s : AddMarkers) (msg : Pose) :
    (s.goalCallback msg).marker.unassigned = s.marker.unassigned := by
  cases hp : s.reach_pickup with
  | false => rw [goalCallback_marker_en_route s msg hp]; rfl
  | true =>
    cases hd : s.reach_dropoff with
    | false => rw [goalCallback_marker_at_pickup s msg hp hd]; rfl
    | true => rw [goalCallback_marker_at_dropoff s msg hp hd]; rfl

theorem step_unassigned (s : AddMarkers) (e : Event) :
    (s.step e).marker.unassigned = s.marker.unassigned := by
  cases e with
  | goal msg => exact goalCallback_unassigned s msg
  | odom msg => simp only [AddMarkers.step, odomCallback_marker]

theorem run_unassigned (es : List Event) :
    ∀ s : AddMarkers, (s.run es).marker.unassigned = s.marker.unassigned := by
  induction es with
  | nil => intro s; rfl
  | cons e es ih => intro s; rw [run_cons, ih, step_unassigned]

theorem ctor_unassigned (now : Time) :
    (AddMarkers.ctor now).marker.unassigned =
      (⟨"map", now⟩, "add_markers", 0, Marker.CUBE, ⟨lit 4 10, lit 4 10, lit 4 10⟩,
        (Fp.ofDec binary32 3 10, Fp.ofDec binary32 5 10, Fp.ofDec binary32 7 10),
        (Fp.zero, Fp.zero, Fp.zero, Fp.zero)) := by
  simp only [Marker.unassigned, AddMarkers.ctor, lit, lit_zero]

theorem run_snoc (s : AddMarkers) (es : List Event) (e : Event) :
    s.run (es ++ [e]) = (s.run es).step e := by
  rw [run_append]; rfl

theorem lastGoal_snoc_goal (es : List Event) (msg : Pose) :
    lastGoal (es ++ [Event.goal msg]) = msg := by
  simp [lastGoal, List.foldl_append]

theorem lastGoal_snoc_odom (es : List Event) (msg : Odometry) :
    lastGoal (es ++ [Event.odom msg]) = lastGoal es := by
  simp [lastGoal, List.foldl_append]

/-! ## Symmetry of the squared differences -/

theorem mk_abs (n : Bool) (m : Nat) (e : Int) : (Fp.mk n m e).abs = Fp.mk false m e := by
  unfold Fp.mk
  split_ifs <;> rfl

theorem roundTo_abs (f : Format) (n : Bool) (m : Nat) (e : Int) :
    (roundTo f n m e).abs = roundTo f false m e := by
  unfold roundTo
  simp only []
  split_ifs <;> first | rfl | exact mk_abs _ _ _

theorem cvt_abs (f : Format) (x : Fp) : (Fp.cvt f x).abs = Fp.cvt f x.abs := by
  cases x with
  | nan => rfl
  | inf n => rfl
  | fin n m e => exact roundTo_abs f n m e

theorem mul_self_abs (f : Format) (x : Fp) : Fp.mul f x x = Fp.mul f x.abs x.abs := by
  cases x with
  | nan => rfl
  | inf n => cases n <;> rfl
  | fin n m e => cases n <;> rfl

theorem scaled_not (n : Bool) (m : Nat) (e e0 : Int) :
    scaled (!n) m e e0 = -scaled n m e e0 := by
  unfold scaled
  cases n <;> simp

theorem sub_abs_symm (f : Format) (a b : Fp) : (Fp.sub f a b).abs = (Fp.sub f b a).abs := by
  unfold Fp.sub
  cases a with
  | nan => cases b <;> rfl
  | inf n1 =>
    cases b with
    | nan => rfl
    | inf n2 => cases n1 <;> cases n2 <;> rfl
    | fin n2 m2 e2 => rfl
  | fin n1 m1 e1 =>
    cases b with
    | nan => rfl
    | inf n2 => rfl
    | fin n2 m2 e2 =>
      simp only [Fp.neg, Fp.add]
      rw [min_comm e2 e1, scaled_not, scaled_not]
      have hneg : scaled n2 m2 e2 (min e1 e2) + -scaled n1 m1 e1 (min e1 e2)
          = -(scaled n1 m1 e1 (min e1 e2) + -scaled n2 m2 e2 (min e1 e2)) := by ring
      rw [hneg]
      by_cases hs : scaled n1 m1 e1 (min e1 e2) + -scaled n2 m2 e2 (min e1 e2) = 0
      · simp only [hs, neg_zero, if_true]; rfl
      · have hs2 : ¬ -(scaled n1 m1 e1 (min e1 e2) + -scaled n2 m2 e2 (min e1 e2)) = 0 := by
          rwa [neg_eq_zero]
        simp only [hs, hs2, if_false, roundTo_abs, Int.natAbs_neg]

/-- The single-precision square of a coordinate difference does not depend on
the order of the two coordinates. -/
theorem sq_diff_symm (a b : Fp) :
    Fp.mul binary32 (Fp.cvt binary32 (Fp.sub binary64 a b)) (Fp.cvt binary32 (Fp.sub binary64 a b))
      = Fp.mul binary32 (Fp.cvt binary32 (Fp.sub binary64 b a))
          (Fp.cvt binary32 (Fp.sub binary64 b a)) := by
  rw [mul_self_abs, cvt_abs, sub_abs_symm, ← cvt_abs, ← mul_self_abs]

/-! ## The claims -/

/-- C1, as stated, fails: one pose update at the origin before any goal sets
`reach_dropoff` (mission state AtDropoff) while the marker alpha stays 0. -/
theorem C1_counterexample :
    ¬ (((AddMarkers.ctor ⟨0, 0⟩).run [Event.odom (odomAt Pose.default)]).marker.color.a = Fp.one ↔
        (goalReceived [Event.odom (odomAt Pose.default)] = true ∧
            ((AddMarkers.ctor ⟨0, 0⟩).run [Event.odom (odomAt Pose.default)]).reach_pickup = false) ∨
          ((AddMarkers.ctor ⟨0, 0⟩).run [Event.odom (odomAt Pose.default)]).reach_dropoff = true) := by
  decide

/-- C1 (amended): in every state reachable from the constructor by goal and
odometry callbacks, the marker alpha is 1 exactly when a goal has been received
and the mission state is EnRouteToPickup (`reach_pickup` false) or AtDropoff
(`reach_dropoff` true); it is 0 exactly in every other state. -/
theorem C1_alpha_iff_goal_received (now : Time) (es : List Event) :
    (((AddMarkers.ctor now).run es).marker.color.a = Fp.one ↔
        goalReceived es = true ∧
          (((AddMarkers.ctor now).run es).reach_pickup = false ∨
            ((AddMarkers.ctor now).run es).reach_dropoff = true)) ∧
      (((AddMarkers.ctor now).run es).marker.color.a = Fp.zero ↔
        ¬ (goalReceived es = true ∧
          (((AddMarkers.ctor now).run es).reach_pickup = false ∨
            ((AddMarkers.ctor now).run es).reach_dropoff = true))) := by
  obtain ⟨hf, ha⟩ := inv_reachable now es
  have hstate : ((AddMarkers.ctor now).run es).reach_pickup = false ∨
      ((AddMarkers.ctor now).run es).reach_dropoff = true := by
    rw [hf]
    cases ((AddMarkers.ctor now).run es).reach_dropoff <;> simp
  cases hg : goalReceived es with
  | false =>
    have ha0 : ((AddMarkers.ctor now).run es).marker.color.a = Fp.zero := by
      simpa [hg] using ha
    simp [ha0, Fp.zero_ne_one]
  | true =>
    have ha1 : ((AddMarkers.ctor now).run es).marker.color.a = Fp.one := by
      simpa [hg] using ha
    simp [ha1, Fp.one_ne_zero, hstate]

/-- C2, as stated, fails: after the pickup goal `(3, 0)` and the poses up to
`(3, 0)` the marker alpha is 1, not 0. -/
theorem C2_counterexample :
    ¬ (((AddMarkers.ctor ⟨0, 0⟩).run happyPickup).marker.color.a = Fp.zero) := by
  decide

/-- C2 (amended): on the happy path the marker alpha is 1 after the pickup goal
`(3, 0)` and stays 1 through the poses `(0,0)`, `(1,0)`, `(2,0)`, `(3,0)`; after
the dropoff goal `(3, 3)` and the poses `(3,0)`, `(3,3)` the marker position is
`(3, 3)` and the alpha is 1. -/
theorem C2_happy_path (now : Time) :
    ((AddMarkers.ctor now).run (happyPickup.take 4)).marker.color.a = Fp.one ∧
      ((AddMarkers.ctor now).run happyPickup).marker.color.a = Fp.one ∧
      ((AddMarkers.ctor now).run (happyPickup ++ happyDropoff)).marker.pose.position.x = lit 3 1 ∧
      ((AddMarkers.ctor now).run (happyPickup ++ happyDropoff)).marker.pose.position.y = lit 3 1 ∧
      ((AddMarkers.ctor now).run (happyPickup ++ happyDropoff)).marker.color.a = Fp.one := by
  have h30 : AddMarkers.reach_target (xy 3 0) (xy 3 0) = true := by decide
  have hp0 : (AddMarkers.ctor now).reach_pickup = false := rfl
  have hrp : ((AddMarkers.ctor now).run happyPickup).reach_pickup = true := by
    simp [happyPickup, run_cons, run_nil, AddMarkers.step, odomCallback_reach_pickup,
      odomCallback_goal, goalCallback_goal, odomAt, h30]
  have hrd : ((AddMarkers.ctor now).run happyPickup).reach_dropoff = true := by
    simp [happyPickup, run_cons, run_nil, AddMarkers.step, odomCallback_reach_dropoff,
      odomCallback_goal, goalCallback_goal, odomAt, h30]
  refine ⟨?_, ?_, ?_, ?_, ?_⟩
  · simp [happyPickup, run_cons, run_nil, AddMarkers.step, odomCallback_marker,
      goalCallback_marker_en_route _ _ hp0]
  · simp [happyPickup, run_cons, run_nil, AddMarkers.step, odomCallback_marker,
      goalCallback_marker_en_route _ _ hp0]
  · rw [run_append]
    simp [happyDropoff, run_cons, run_nil, AddMarkers.step, odomCallback_marker,
      goalCallback_marker_at_dropoff _ _ hrp hrd, xy, poseAt]
  · rw [run_append]
    simp [happyDropoff, run_cons, run_nil, AddMarkers.step, odomCallback_marker,
      goalCallback_marker_at_dropoff _ _ hrp hrd, xy, poseAt]
  · rw [run_append]
    simp [happyDropoff, run_cons, run_nil, AddMarkers.step, odomCallback_marker,
      goalCallback_marker_at_dropoff _ _ hrp hrd]

/-- C3, as stated, fails: from EnRouteToPickup with goal `(3, 0)`, the arriving
pose `(3, 0)` sets `reach_dropoff` too and leaves the marker alpha at 1. -/
theorem C3_counterexample :
    (((AddMarkers.ctor ⟨0, 0⟩).goalCallback (xy 3 0)).reach_pickup = false ∧
        ((AddMarkers.ctor ⟨0, 0⟩).goalCallback (xy 3 0)).reach_dropoff = false ∧
        ((AddMarkers.ctor ⟨0, 0⟩).goalCallback (xy 3 0)).marker.color.a = Fp.one ∧
        AddMarkers.reach_target (odomAt (xy 3 0)).pose.pose
          ((AddMarkers.ctor ⟨0, 0⟩).goalCallback (xy 3 0)).goal = true) ∧
      ¬ ((((AddMarkers.ctor ⟨0, 0⟩).goalCallback (xy 3 0)).odomCallback
              (odomAt (xy 3 0))).reach_pickup = true ∧
          (((AddMarkers.ctor ⟨0, 0⟩).goalCallback (xy 3 0)).odomCallback
              (odomAt (xy 3 0))).reach_dropoff = false ∧
          (((AddMarkers.ctor ⟨0, 0⟩).goalCallback (xy 3 0)).odomCallback
              (odomAt (xy 3 0))).marker.color.a = Fp.zero) := by
  decide

/-- C3 (amended): from a state in EnRouteToPickup (both flags false, alpha 1), one
odometry callback with a pose that `reach_target` accepts against the stored
goal sets `reach_pickup` and leaves the marker unchanged, its alpha still 1. -/
theorem C3_arrival_sets_reach_pickup (s : AddMarkers) (msg : Odometry)
    (hp : s.reach_pickup = false) (_hd : s.reach_dropoff = false)
    (ha : s.marker.color.a = Fp.one)
    (hr : AddMarkers.reach_target msg.pose.pose s.goal = true) :
    (s.odomCallback msg).reach_pickup = true ∧
      (s.odomCallback msg).marker = s.marker ∧
      (s.odomCallback msg).marker.color.a = Fp.one := by
  refine ⟨?_, odomCallback_marker s msg, ?_⟩
  · rw [odomCallback_reach_pickup, hp, hr]; rfl
  · rw [odomCallback_marker, ha]

/-- C3 (amended), at the goal `(3, 0)` and the arriving pose `(3, 0)`. -/
theorem C3_arrival_sets_reach_pickup_witness :
    (((AddMarkers.ctor ⟨0, 0⟩).goalCallback (xy 3 0)).odomCallback
          (odomAt (xy 3 0))).reach_pickup = true ∧
      (((AddMarkers.ctor ⟨0, 0⟩).goalCallback (xy 3 0)).odomCallback (odomAt (xy 3 0))).marker =
        ((AddMarkers.ctor ⟨0, 0⟩).goalCallback (xy 3 0)).marker ∧
      (((AddMarkers.ctor ⟨0, 0⟩).goalCallback (xy 3 0)).odomCallback
          (odomAt (xy 3 0))).marker.color.a = Fp.one :=
  C3_arrival_sets_reach_pickup ((AddMarkers.ctor ⟨0, 0⟩).goalCallback (xy 3 0))
    (odomAt (xy 3 0)) (by decide) (by decide) (by decide) (by decide)

/-- C4, as stated, fails: after the goals `(1, 0)` and then `(2, 0)` the marker
pose is not the one set by `(1, 0)` alone. -/
theorem C4_counterexample :
    ¬ ((((AddMarkers.ctor ⟨0, 0⟩).goalCallback (xy 1 0)).goalCallback (xy 2 0)).marker.pose =
        ((AddMarkers.ctor ⟨0, 0⟩).goalCallback (xy 1 0)).marker.pose) := by
  decide

/-- C4 (amended): after `goalCallback(g1)` then `goalCallback(g2)` from the initial
state, the marker position `x`, `y` and orientation `w` are those of `g2`: the
marker pose equals the pose after `goalCallback(g2)` alone, and the marker is
visible. -/
theorem C4_second_goal_replaces_first (now : Time) (g1 g2 : Pose) :
    (((AddMarkers.ctor now).goalCallback g1).goalCallback g2).marker.pose.position.x
        = g2.position.x ∧
      (((AddMarkers.ctor now).goalCallback g1).goalCallback g2).marker.pose.position.y
        = g2.position.y ∧
      (((AddMarkers.ctor now).goalCallback g1).goalCallback g2).marker.pose.orientation.w
        = g2.orientation.w ∧
      (((AddMarkers.ctor now).goalCallback g1).goalCallback g2).marker.pose
        = ((AddMarkers.ctor now).goalCallback g2).marker.pose ∧
      (((AddMarkers.ctor now).goalCallback g1).goalCallback g2).marker.color.a = Fp.one := by
  have h0 : (AddMarkers.ctor now).reach_pickup = false := rfl
  have h1 : ((AddMarkers.ctor now).goalCallback g1).reach_pickup = false := by
    rw [goalCallback_reach_pickup]; rfl
  rw [goalCallback_marker_en_route _ g2 h1, goalCallback_marker_en_route _ g1 h0,
    goalCallback_marker_en_route _ g2 h0]
  exact ⟨rfl, rfl, rfl, rfl, rfl⟩

/-- C5, as stated, fails: in the AtDropoff state reached by the first half of the
happy path (marker at `(3, 0)`), the goal `(3, 3)` moves the marker. -/
theorem C5_counterexample :
    (((AddMarkers.ctor ⟨0, 0⟩).run happyPickup).reach_pickup = true ∧
        ((AddMarkers.ctor ⟨0, 0⟩).run happyPickup).reach_dropoff = true) ∧
      ¬ ((((AddMarkers.ctor ⟨0, 0⟩).run happyPickup).goalCallback (xy 3 3)).marker.pose =
          ((AddMarkers.ctor ⟨0, 0⟩).run happyPickup).marker.pose) := by
  decide

/-- C5 (amended): in a state with both flags true, an odometry callback leaves
the flags and the whole marker unchanged; a goal callback leaves the flags
unchanged, moves the marker to the new goal (position `x`, `y`, orientation `w`)
and sets the alpha to 1. -/
theorem C5_at_dropoff (s : AddMarkers) (g : Pose) (p : Odometry)
    (hp : s.reach_pickup = true) (hd : s.reach_dropoff = true) :
    ((s.odomCallback p).reach_pickup = true ∧ (s.odomCallback p).reach_dropoff = true ∧
        (s.odomCallback p).marker = s.marker) ∧
      ((s.goalCallback g).reach_pickup = true ∧ (s.goalCallback g).reach_dropoff = true ∧
        (s.goalCallback g).marker.pose.position.x = g.position.x ∧
        (s.goalCallback g).marker.pose.position.y = g.position.y ∧
        (s.goalCallback g).marker.pose.orientation.w = g.orientation.w ∧
        (s.goalCallback g).marker.color.a = Fp.one) := by
  refine ⟨⟨?_, ?_, odomCallback_marker s p⟩, ?_, ?_, ?_⟩
  · rw [odomCallback_reach_pickup, hp]; rfl
  · rw [odomCallback_reach_dropoff, hd]; rfl
  · rw [goalCallback_reach_pickup, hp]
  · rw [goalCallback_reach_dropoff, hd]
  · rw [goalCallback_marker_at_dropoff s g hp hd]
    exact ⟨rfl, rfl, rfl, rfl⟩

/-- C5 (amended), at the AtDropoff state of the happy path, the goal `(3, 3)` and
the pose `(3, 3)`. -/
theorem C5_at_dropoff_witness :
    ((((AddMarkers.ctor ⟨0, 0⟩).run happyPickup).odomCallback (odomAt (xy 3 3))).reach_pickup
          = true ∧
        (((AddMarkers.ctor ⟨0, 0⟩).run happyPickup).odomCallback (odomAt (xy 3 3))).reach_dropoff
          = true ∧
        (((AddMarkers.ctor ⟨0, 0⟩).run happyPickup).odomCallback (odomAt (xy 3 3))).marker
          = ((AddMarkers.ctor ⟨0, 0⟩).run happyPickup).marker) ∧
      ((((AddMarkers.ctor ⟨0, 0⟩).run happyPickup).goalCallback (xy 3 3)).reach_pickup = true ∧
        (((AddMarkers.ctor ⟨0, 0⟩).run happyPickup).goalCallback (xy 3 3)).reach_dropoff = true ∧
        (((AddMarkers.ctor ⟨0, 0⟩).run happyPickup).goalCallback (xy 3 3)).marker.pose.position.x
          = (xy 3 3).position.x ∧
        (((AddMarkers.ctor ⟨0, 0⟩).run happyPickup).goalCallback (xy 3 3)).marker.pose.position.y
          = (xy 3 3).position.y ∧
        (((AddMarkers.ctor ⟨0, 0⟩).run happyPickup).goalCallback (xy 3 3)).marker.pose.orientation.w
          = (xy 3 3).orientation.w ∧
        (((AddMarkers.ctor ⟨0, 0⟩).run happyPickup).goalCallback (xy 3 3)).marker.color.a
          = Fp.one) :=
  C5_at_dropoff ((AddMarkers.ctor ⟨0, 0⟩).run happyPickup) (xy 3 3) (odomAt (xy 3 3))
    (by decide) (by decide)

/-- C6, as stated, fails: in the initial state the stored goal is the
default-constructed pose at the origin, and a pose update at the origin sets
`reach_pickup` although no goal was ever received. -/
theorem C6_counterexample :
    ¬ (((AddMarkers.ctor ⟨0, 0⟩).odomCallback (odomAt Pose.default)).reach_pickup = false ∧
        ((AddMarkers.ctor ⟨0, 0⟩).odomCallback (odomAt Pose.default)).reach_dropoff = false ∧
        ((AddMarkers.ctor ⟨0, 0⟩).odomCallback (odomAt Pose.default)).marker
          = (AddMarkers.ctor ⟨0, 0⟩).marker) := by
  decide

/-- C6 (amended): in the initial state, an odometry callback with a pose that
`reach_target` rejects against the default-constructed goal (the origin) leaves
both flags false and the marker unchanged. -/
theorem C6_pose_before_goal (now : Time) (msg : Odometry)
    (h : AddMarkers.reach_target msg.pose.pose Pose.default = false) :
    ((AddMarkers.ctor now).odomCallback msg).reach_pickup = false ∧
      ((AddMarkers.ctor now).odomCallback msg).reach_dropoff = false ∧
      ((AddMarkers.ctor now).odomCallback msg).marker = (AddMarkers.ctor now).marker := by
  have hg : (AddMarkers.ctor now).goal = Pose.default := rfl
  refine ⟨?_, ?_, odomCallback_marker _ msg⟩
  · rw [odomCallback_reach_pickup, hg, h]; rfl
  · rw [odomCallback_reach_dropoff, hg, h]; rfl

/-- C6 (amended), at the pose `(1, 0, 0)`. -/
theorem C6_pose_before_goal_witness :
    ((AddMarkers.ctor ⟨0, 0⟩).odomCallback (odomAt (xy 1 0))).reach_pickup = false ∧
      ((AddMarkers.ctor ⟨0, 0⟩).odomCallback (odomAt (xy 1 0))).reach_dropoff = false ∧
      ((AddMarkers.ctor ⟨0, 0⟩).odomCallback (odomAt (xy 1 0))).marker
        = (AddMarkers.ctor ⟨0, 0⟩).marker :=
  C6_pose_before_goal ⟨0, 0⟩ (odomAt (xy 1 0)) (by decide)

/-- C7: a goal callback in the initial state stores the goal, copies its position
`x`, `y` and orientation `w` into the marker, sets the marker alpha to 1 and
leaves both flags false. -/
theorem C7_first_goal (now : Time) (g : Pose) :
    ((AddMarkers.ctor now).goalCallback g).goal = g ∧
      ((AddMarkers.ctor now).goalCallback g).marker.pose.position.x = g.position.x ∧
      ((AddMarkers.ctor now).goalCallback g).marker.pose.position.y = g.position.y ∧
      ((AddMarkers.ctor now).goalCallback g).marker.pose.orientation.w = g.orientation.w ∧
      ((AddMarkers.ctor now).goalCallback g).marker.color.a = Fp.one ∧
      ((AddMarkers.ctor now).goalCallback g).reach_pickup = false ∧
      ((AddMarkers.ctor now).goalCallback g).reach_dropoff = false := by
  have h0 : (AddMarkers.ctor now).reach_pickup = false := rfl
  refine ⟨goalCallback_goal _ g, ?_, ?_, ?_, ?_, ?_, ?_⟩
  · rw [goalCallback_marker_en_route _ g h0]
  · rw [goalCallback_marker_en_route _ g h0]
  · rw [goalCallback_marker_en_route _ g h0]
  · rw [goalCallback_marker_en_route _ g h0]
  · rw [goalCallback_reach_pickup]; rfl
  · rw [goalCallback_reach_dropoff]; rfl

/-- C8: in a state with `reach_pickup` false, any number of odometry callbacks
with a pose that `reach_target` rejects against the stored goal leaves both
flags, the marker pose and the marker alpha unchanged.  In particular, with the
pickup goal `(0.4, 0, 0)` the pose `(0, 0, 0)` is rejected, and after any number
of such poses the marker is visible at the goal and `reach_pickup` is false. -/
theorem C8_no_arrival_no_change :
    (∀ (s : AddMarkers) (msg : Odometry) (n : Nat), s.reach_pickup = false →
        AddMarkers.reach_target msg.pose.pose s.goal = false →
        (s.run (List.replicate n (Event.odom msg))).reach_pickup = s.reach_pickup ∧
          (s.run (List.replicate n (Event.odom msg))).reach_dropoff = s.reach_dropoff ∧
          (s.run (List.replicate n (Event.odom msg))).marker.pose = s.marker.pose ∧
          (s.run (List.replicate n (Event.odom msg))).marker.color.a = s.marker.color.a) ∧
      AddMarkers.reach_target (xy 0 0) thresholdGoal = false ∧
      (∀ (now : Time) (n : Nat),
        (((AddMarkers.ctor now).goalCallback thresholdGoal).run
            (List.replicate n (Event.odom (odomAt (xy 0 0))))).marker.color.a = Fp.one ∧
          (((AddMarkers.ctor now).goalCallback thresholdGoal).run
            (List.replicate n (Event.odom (odomAt (xy 0 0))))).marker.pose.position.x
              = lit 4 10 ∧
          (((AddMarkers.ctor now).goalCallback thresholdGoal).run
            (List.replicate n (Event.odom (odomAt (xy 0 0))))).reach_pickup = false ∧
          (((AddMarkers.ctor now).goalCallback thresholdGoal).run
            (List.replicate n (Event.odom (odomAt (xy 0 0))))).reach_dropoff = false) := by
  have hthr : AddMarkers.reach_target (xy 0 0) thresholdGoal = false := by decide
  refine ⟨?_, hthr, ?_⟩
  · intro s msg n hp hr
    obtain ⟨h1, h2, h3, _⟩ := run_replicate_odom msg n s hp hr
    exact ⟨h1, h2, by rw [h3], by rw [h3]⟩
  · intro now n
    have h0 : (AddMarkers.ctor now).reach_pickup = false := rfl
    have hp : ((AddMarkers.ctor now).goalCallback thresholdGoal).reach_pickup = false := by
      rw [goalCallback_reach_pickup]; rfl
    have hd : ((AddMarkers.ctor now).goalCallback thresholdGoal).reach_dropoff = false := by
      rw [goalCallback_reach_dropoff]; rfl
    have hr : AddMarkers.reach_target (odomAt (xy 0 0)).pose.pose
        ((AddMarkers.ctor now).goalCallback thresholdGoal).goal = false := by
      rw [goalCallback_goal]; exact hthr
    obtain ⟨h1, h2, h3, _⟩ := run_replicate_odom (odomAt (xy 0 0)) n _ hp hr
    rw [h1, h2, h3, goalCallback_marker_en_route _ _ h0]
    exact ⟨rfl, rfl, hp, hd⟩

/-- C8, at the threshold scenario: goal `(0.4, 0, 0)`, three poses `(0, 0, 0)`. -/
theorem C8_no_arrival_no_change_witness :
    (((AddMarkers.ctor ⟨0, 0⟩).goalCallback thresholdGoal).run
          (List.replicate 3 (Event.odom (odomAt (xy 0 0))))).reach_pickup
        = ((AddMarkers.ctor ⟨0, 0⟩).goalCallback thresholdGoal).reach_pickup ∧
      (((AddMarkers.ctor ⟨0, 0⟩).goalCallback thresholdGoal).run
          (List.replicate 3 (Event.odom (odomAt (xy 0 0))))).reach_dropoff
        = ((AddMarkers.ctor ⟨0, 0⟩).goalCallback thresholdGoal).reach_dropoff ∧
      (((AddMarkers.ctor ⟨0, 0⟩).goalCallback thresholdGoal).run
          (List.replicate 3 (Event.odom (odomAt (xy 0 0))))).marker.pose
        = ((AddMarkers.ctor ⟨0, 0⟩).goalCallback thresholdGoal).marker.pose ∧
      (((AddMarkers.ctor ⟨0, 0⟩).goalCallback thresholdGoal).run
          (List.replicate 3 (Event.odom (odomAt (xy 0 0))))).marker.color.a
        = ((AddMarkers.ctor ⟨0, 0⟩).goalCallback thresholdGoal).marker.color.a :=
  C8_no_arrival_no_change.1 ((AddMarkers.ctor ⟨0, 0⟩).goalCallback thresholdGoal)
    (odomAt (xy 0 0)) 3 (by decide) (by decide)

/-- C9, as stated, fails: the pose at `x = 0.3999999999` is at distance less than
`0.4` from the origin, but its single-precision difference rounds to
`dist_thres` and `reach_target` returns false. -/
theorem C9_counterexample :
    ¬ (AddMarkers.reach_target nearPose Pose.default = true ↔
        Real.sqrt ((distSq nearPose Pose.default : ℚ) : ℝ) < 0.4) := by
  have h1 : AddMarkers.reach_target nearPose Pose.default = false := by decide
  have hx : nearPose.position.x = Fp.fin false 3602879700995677 (-53) := by decide
  have hy : nearPose.position.y = Fp.fin false 0 0 := by decide
  have hz : nearPose.position.z = Fp.fin false 0 0 := by decide
  have h0 : Pose.default.position = ⟨Fp.fin false 0 0, Fp.fin false 0 0, Fp.fin false 0 0⟩ := rfl
  have h2 : distSq nearPose Pose.default < (4 / 10) ^ 2 := by
    unfold distSq
    rw [hx, hy, hz, h0]
    simp only [toRat_fin]
    norm_num
  have h3 : Real.sqrt ((distSq nearPose Pose.default : ℚ) : ℝ) < 0.4 := by
    rw [Real.sqrt_lt' (by norm_num)]
    have : ((distSq nearPose Pose.default : ℚ) : ℝ) < (((4 / 10) ^ 2 : ℚ) : ℝ) := by
      exact_mod_cast h2
    calc ((distSq nearPose Pose.default : ℚ) : ℝ) < (((4 / 10) ^ 2 : ℚ) : ℝ) := this
      _ = (0.4 : ℝ) ^ 2 := by norm_num
  intro h
  rw [h.2 h3] at h1
  exact Bool.noConfusion h1

/-- C9 (amended): `reach_target` decides the distance threshold up to rounding.
When it returns true, the position coordinates are finite and the Euclidean
distance is below `0.4 + 10 ^ (-6)`; for finite position coordinates at
Euclidean distance below `0.4 - 10 ^ (-6)` it returns true; so it is false at
every distance of at least `0.4 + 10 ^ (-6)`.  The orientations do not affect
the result. -/
theorem C9_reach_target_threshold (p t : Pose) :
    (AddMarkers.reach_target p t = true →
        p.position.isFin = true ∧ t.position.isFin = true ∧
          Real.sqrt ((distSq p t : ℚ) : ℝ) < 0.4 + 0.000001) ∧
      (p.position.isFin = true → t.position.isFin = true →
        Real.sqrt ((distSq p t : ℚ) : ℝ) < 0.4 - 0.000001 →
          AddMarkers.reach_target p t = true) ∧
      (0.4 + 0.000001 ≤ Real.sqrt ((distSq p t : ℚ) : ℝ) →
        AddMarkers.reach_target p t = false) ∧
      (∀ o1 o2 : Quaternion,
        AddMarkers.reach_target ⟨p.position, o1⟩ ⟨t.position, o2⟩
          = AddMarkers.reach_target p t) := by
  have sound : AddMarkers.reach_target p t = true →
      p.position.isFin = true ∧ t.position.isFin = true ∧
        Real.sqrt ((distSq p t : ℚ) : ℝ) < 0.4 + 0.000001 := by
    intro h
    obtain ⟨h1, h2, h3⟩ := reach_target_sound p t h
    refine ⟨h1, h2, ?_⟩
    rw [Real.sqrt_lt' (by norm_num)]
    have : ((distSq p t : ℚ) : ℝ) < (((4 / 10 + 1 / 1000000) ^ 2 : ℚ) : ℝ) := by
      exact_mod_cast h3
    calc ((distSq p t : ℚ) : ℝ) < (((4 / 10 + 1 / 1000000) ^ 2 : ℚ) : ℝ) := this
      _ = (0.4 + 0.000001 : ℝ) ^ 2 := by norm_num
  refine ⟨sound, ?_, ?_, fun _ _ => rfl⟩
  · intro hp ht h
    rw [Real.sqrt_lt' (by norm_num)] at h
    apply reach_target_complete p t hp ht
    have h' : ((distSq p t : ℚ) : ℝ) < (((4 / 10 - 1 / 1000000) ^ 2 : ℚ) : ℝ) := by
      calc ((distSq p t : ℚ) : ℝ) < (0.4 - 0.000001 : ℝ) ^ 2 := h
        _ = (((4 / 10 - 1 / 1000000) ^ 2 : ℚ) : ℝ) := by norm_num
    exact_mod_cast h'
  · intro h
    cases hr : AddMarkers.reach_target p t with
    | false => rfl
    | true => exact absurd (sound hr).2.2 (not_lt.2 h)

/-- C9 (amended), at the pose `(3, 0, 0)` against itself (accepted) and at the
pose `(0, 0, 0)` against `(3, 0, 0)` (distance 3, rejected). -/
theorem C9_reach_target_threshold_witness :
    ((xy 3 0).position.isFin = true ∧ (xy 3 0).position.isFin = true ∧
        Real.sqrt ((distSq (xy 3 0) (xy 3 0) : ℚ) : ℝ) < 0.4 + 0.000001) ∧
      AddMarkers.reach_target (xy 0 0) (xy 3 0) = false :=
  ⟨(C9_reach_target_threshold (xy 3 0) (xy 3 0)).1 (by decide),
    (C9_reach_target_threshold (xy 0 0) (xy 3 0)).2.2.1 (by
      have h : distSq (xy 0 0) (xy 3 0) = 9 := by
        have h0 : lit 0 1 = Fp.fin false 0 0 := by decide
        have h3 : lit 3 1 = Fp.fin false 3 0 := by decide
        simp only [distSq, xy, poseAt, h0, h3, toRat_fin]
        norm_num
      rw [h]
      have : (0.4 + 0.000001 : ℝ) ≤ 3 := by norm_num
      refine le_trans this ?_
      rw [show ((9 : ℚ) : ℝ) = 3 ^ 2 by norm_num, Real.sqrt_sq (by norm_num)])⟩

/-- C10: along every run from the initial state the mission state index never
decreases: a flag that is true after a sequence of callbacks is true after
every extension of that sequence, and `reach_dropoff` is never true while
`reach_pickup` is false. -/
theorem C10_mission_monotone (now : Time) (es1 es2 : List Event) :
    missionIndex (goalReceived es1) ((AddMarkers.ctor now).run es1)
        ≤ missionIndex (goalReceived (es1 ++ es2)) ((AddMarkers.ctor now).run (es1 ++ es2)) ∧
      (((AddMarkers.ctor now).run es1).reach_pickup = true →
        ((AddMarkers.ctor now).run (es1 ++ es2)).reach_pickup = true) ∧
      (((AddMarkers.ctor now).run es1).reach_dropoff = true →
        ((AddMarkers.ctor now).run (es1 ++ es2)).reach_dropoff = true) ∧
      (((AddMarkers.ctor now).run es1).reach_dropoff = true →
        ((AddMarkers.ctor now).run es1).reach_pickup = true) := by
  have hp : ((AddMarkers.ctor now).run es1).reach_pickup = true →
      ((AddMarkers.ctor now).run (es1 ++ es2)).reach_pickup = true := by
    intro h; rw [run_append]; exact run_reach_pickup_mono es2 _ h
  have hd : ((AddMarkers.ctor now).run es1).reach_dropoff = true →
      ((AddMarkers.ctor now).run (es1 ++ es2)).reach_dropoff = true := by
    intro h; rw [run_append]; exact run_reach_dropoff_mono es2 _ h
  have hf := (inv_reachable now es1).1
  refine ⟨?_, hp, hd, fun h => by rw [hf, h]⟩
  rw [goalReceived_append]
  unfold missionIndex
  cases h1 : ((AddMarkers.ctor now).run es1).reach_dropoff with
  | true => rw [hd h1]; simp
  | false =>
    have h2 : ((AddMarkers.ctor now).run es1).reach_pickup = false := by rw [hf, h1]
    rw [h2]
    cases ((AddMarkers.ctor now).run (es1 ++ es2)).reach_dropoff <;>
      cases ((AddMarkers.ctor now).run (es1 ++ es2)).reach_pickup <;>
      cases goalReceived es1 <;> cases goalReceived es2 <;> simp

/-- C11: in every state reachable from the constructor, the marker handed to the
publisher has frame id "map", namespace "add_markers", id 0, shape cube, scale
`(0.4, 0.4, 0.4)` and colour `(0.3f, 0.5f, 0.7f)`; no callback changes these
members, from any state. -/
theorem C11_marker_constants (now : Time) (es : List Event) :
    ((AddMarkers.ctor now).run es).publishMarkers.header.frame_id = "map" ∧
      ((AddMarkers.ctor now).run es).publishMarkers.ns = "add_markers" ∧
      ((AddMarkers.ctor now).run es).publishMarkers.id = 0 ∧
      ((AddMarkers.ctor now).run es).publishMarkers.type = Marker.CUBE ∧
      ((AddMarkers.ctor now).run es).publishMarkers.scale = ⟨lit 4 10, lit 4 10, lit 4 10⟩ ∧
      ((AddMarkers.ctor now).run es).publishMarkers.color.r = Fp.ofDec binary32 3 10 ∧
      ((AddMarkers.ctor now).run es).publishMarkers.color.g = Fp.ofDec binary32 5 10 ∧
      ((AddMarkers.ctor now).run es).publishMarkers.color.b = Fp.ofDec binary32 7 10 ∧
      (∀ (s : AddMarkers) (e : Event),
        ((s.step e).marker.header, (s.step e).marker.ns, (s.step e).marker.id,
            (s.step e).marker.type, (s.step e).marker.scale, (s.step e).marker.color.r,
            (s.step e).marker.color.g, (s.step e).marker.color.b)
          = (s.marker.header, s.marker.ns, s.marker.id, s.marker.type, s.marker.scale,
              s.marker.color.r, s.marker.color.g, s.marker.color.b)) := by
  have h := (run_unassigned es (AddMarkers.ctor now)).trans (ctor_unassigned now)
  simp only [Marker.unassigned, Prod.mk.injEq] at h
  obtain ⟨h1, h2, h3, h4, h5, ⟨h6, h7, h8⟩, _⟩ := h
  refine ⟨by rw [AddMarkers.publishMarkers, h1], h2, h3, h4, h5, h6, h7, h8, ?_⟩
  intro s e
  have hs := step_unassigned s e
  simp only [Marker.unassigned, Prod.mk.injEq] at hs
  obtain ⟨g1, g2, g3, g4, g5, ⟨g6, g7, g8⟩, _⟩ := hs
  rw [g1, g2, g3, g4, g5, g6, g7, g8]

/-- C12: in every state reachable from the constructor, whatever the `z` and
orientation components of the goals, the marker `pose.position.z` and
`pose.orientation.x`, `y`, `z` are 0; no callback changes these four
components, from any state. -/
theorem C12_other_pose_components_zero (now : Time) (es : List Event) :
    ((AddMarkers.ctor now).run es).marker.pose.position.z = Fp.zero ∧
      ((AddMarkers.ctor now).run es).marker.pose.orientation.x = Fp.zero ∧
      ((AddMarkers.ctor now).run es).marker.pose.orientation.y = Fp.zero ∧
      ((AddMarkers.ctor now).run es).marker.pose.orientation.z = Fp.zero ∧
      (∀ (s : AddMarkers) (e : Event),
        ((s.step e).marker.pose.position.z, (s.step e).marker.pose.orientation.x,
            (s.step e).marker.pose.orientation.y, (s.step e).marker.pose.orientation.z)
          = (s.marker.pose.position.z, s.marker.pose.orientation.x,
              s.marker.pose.orientation.y, s.marker.pose.orientation.z)) := by
  have h := (run_unassigned es (AddMarkers.ctor now)).trans (ctor_unassigned now)
  simp only [Marker.unassigned, Prod.mk.injEq] at h
  obtain ⟨_, _, _, _, _, _, h1, h2, h3, h4⟩ := h
  refine ⟨h1, h2, h3, h4, ?_⟩
  intro s e
  have hs := step_unassigned s e
  simp only [Marker.unassigned, Prod.mk.injEq] at hs
  obtain ⟨_, _, _, _, _, _, g1, g2, g3, g4⟩ := hs
  rw [g1, g2, g3, g4]

/-- C13: `reach_target` is symmetric in its two poses. -/
theorem C13_reach_target_symmetric (p t : Pose) :
    AddMarkers.reach_target p t = AddMarkers.reach_target t p := by
  simp only [AddMarkers.reach_target]
  rw [sq_diff_symm p.position.x, sq_diff_symm p.position.y, sq_diff_symm p.position.z]

/-- C14: for every pose with finite position coordinates, `reach_target` of the
pose against itself is true. -/
theorem C14_reach_target_reflexive (p : Pose) (h : p.position.isFin = true) :
    AddMarkers.reach_target p p = true := by
  apply reach_target_complete p p h h
  unfold distSq
  simp only [sub_self]
  norm_num

/-- C14, at the pose `(3, 0, 0)`. -/
theorem C14_reach_target_reflexive_witness :
    AddMarkers.reach_target (xy 3 0) (xy 3 0) = true :=
  C14_reach_target_reflexive (xy 3 0) (by decide)

/-- C15: after an odometry callback the stored odometry pose is the pose of the
message, from every state. -/
theorem C15_odom_overwritten (s : AddMarkers) (msg : Odometry) :
    (s.odomCallback msg).odom = msg.pose.pose ∧
      (s.odomCallback msg).odom.position.x = msg.pose.pose.position.x ∧
      (s.odomCallback msg).odom.position.y = msg.pose.pose.position.y ∧
      (s.odomCallback msg).odom.position.z = msg.pose.pose.position.z ∧
      (s.odomCallback msg).odom.orientation.x = msg.pose.pose.orientation.x ∧
      (s.odomCallback msg).odom.orientation.y = msg.pose.pose.orientation.y ∧
      (s.odomCallback msg).odom.orientation.z = msg.pose.pose.orientation.z ∧
      (s.odomCallback msg).odom.orientation.w = msg.pose.pose.orientation.w := by
  have h := odomCallback_odom s msg
  refine ⟨h, ?_, ?_, ?_, ?_, ?_, ?_, ?_⟩ <;> rw [h]

/-- C17: in every state reachable from the constructor the two flags are equal,
so `goalCallback` never takes its middle branch (the one that hides the marker
and sleeps five seconds); a single arriving odometry callback sets both
flags. -/
theorem C17_flags_equal (now : Time) (es : List Event) :
    ((AddMarkers.ctor now).run es).reach_pickup = ((AddMarkers.ctor now).run es).reach_dropoff ∧
      ((AddMarkers.ctor now).run es).goalCallbackSleeps = false ∧
      (∀ (s : AddMarkers) (msg : Odometry), s.reach_pickup = false → s.reach_dropoff = false →
        AddMarkers.reach_target msg.pose.pose s.goal = true →
        (s.odomCallback msg).reach_pickup = true ∧ (s.odomCallback msg).reach_dropoff = true) := by
  have hf := (inv_reachable now es).1
  refine ⟨hf, ?_, ?_⟩
  · unfold AddMarkers.goalCallbackSleeps
    rw [hf]
    cases ((AddMarkers.ctor now).run es).reach_dropoff <;> rfl
  · intro s msg _ _ hr
    rw [odomCallback_reach_pickup, odomCallback_reach_dropoff, hr]
    simp

/-- C17, at the goal `(3, 0)` and the arriving pose `(3, 0)`: both flags are set
by the one odometry callback. -/
theorem C17_flags_equal_witness :
    (((AddMarkers.ctor ⟨0, 0⟩).goalCallback (xy 3 0)).odomCallback (odomAt (xy 3 0))).reach_pickup
        = true ∧
      (((AddMarkers.ctor ⟨0, 0⟩).goalCallback (xy 3 0)).odomCallback
          (odomAt (xy 3 0))).reach_dropoff = true :=
  (C17_flags_equal ⟨0, 0⟩ []).2.2 ((AddMarkers.ctor ⟨0, 0⟩).goalCallback (xy 3 0))
    (odomAt (xy 3 0)) (by decide) (by decide) (by decide)

/-- C18: along every run from the constructor the marker alpha is 0 or 1; once
it is 1 it is 1 after every further callback, and it is 1 from the first goal
message on. -/
theorem C18_alpha_never_hidden_again (now : Time) (es1 es2 : List Event) :
    (((AddMarkers.ctor now).run es1).marker.color.a = Fp.zero ∨
        ((AddMarkers.ctor now).run es1).marker.color.a = Fp.one) ∧
      (((AddMarkers.ctor now).run es1).marker.color.a = Fp.one →
        ((AddMarkers.ctor now).run (es1 ++ es2)).marker.color.a = Fp.one) ∧
      (goalReceived es1 = true →
        ((AddMarkers.ctor now).run (es1 ++ es2)).marker.color.a = Fp.one) := by
  have h1 := (inv_reachable now es1).2
  have h2 := (inv_reachable now (es1 ++ es2)).2
  rw [goalReceived_append] at h2
  cases hg : goalReceived es1 with
  | false =>
    rw [hg] at h1
    simp only [Bool.false_eq_true, if_false] at h1
    refine ⟨Or.inl h1, ?_, ?_⟩
    · intro h; rw [h1] at h; exact absurd h Fp.zero_ne_one
    · intro h; exact absurd h (by simp)
  | true =>
    rw [hg] at h1 h2
    simp only [if_true, Bool.true_or] at h1 h2
    exact ⟨Or.inr h1, fun _ => h2, fun _ => h2⟩

/-- C19: from every state, an odometry callback leaves the whole marker and the
stored goal unchanged, and a goal callback leaves both flags and the stored
odometry pose unchanged. -/
theorem C19_callback_frames (s : AddMarkers) (g : Pose) (p : Odometry) :
    (s.odomCallback p).marker = s.marker ∧
      (s.odomCallback p).goal = s.goal ∧
      (s.goalCallback g).reach_pickup = s.reach_pickup ∧
      (s.goalCallback g).reach_dropoff = s.reach_dropoff ∧
      (s.goalCallback g).odom = s.odom :=
  ⟨odomCallback_marker s p, odomCallback_goal s p, goalCallback_reach_pickup s g,
    goalCallback_reach_dropoff s g, goalCallback_odom s g⟩

/-- C20: in every state reachable from the constructor, when the marker alpha
is 1 the marker position `x`, `y` and orientation `w` are those of the stored
goal, and the stored goal is the most recent goal message (the
default-constructed pose before any). -/
theorem C20_marker_at_stored_goal (now : Time) (es : List Event) :
    (((AddMarkers.ctor now).run es).marker.color.a = Fp.one →
        ((AddMarkers.ctor now).run es).marker.pose.position.x
            = ((AddMarkers.ctor now).run es).goal.position.x ∧
          ((AddMarkers.ctor now).run es).marker.pose.position.y
            = ((AddMarkers.ctor now).run es).goal.position.y ∧
          ((AddMarkers.ctor now).run es).marker.pose.orientation.w
            = ((AddMarkers.ctor now).run es).goal.orientation.w) ∧
      ((AddMarkers.ctor now).run es).goal = lastGoal es := by
  have key : (goalReceived es = true →
        ((AddMarkers.ctor now).run es).marker.pose.position.x
            = ((AddMarkers.ctor now).run es).goal.position.x ∧
          ((AddMarkers.ctor now).run es).marker.pose.position.y
            = ((AddMarkers.ctor now).run es).goal.position.y ∧
          ((AddMarkers.ctor now).run es).marker.pose.orientation.w
            = ((AddMarkers.ctor now).run es).goal.orientation.w) ∧
      ((AddMarkers.ctor now).run es).goal = lastGoal es := by
    induction es using List.reverseRecOn with
    | nil => exact ⟨fun h => absurd h (by simp [goalReceived]), rfl⟩
    | append_singleton es e ih =>
      have hf := (inv_reachable now es).1
      rw [run_snoc]
      cases e with
      | goal msg =>
        rw [lastGoal_snoc_goal]
        simp only [AddMarkers.step, goalCallback_goal]
        refine ⟨fun _ => ?_, trivial⟩
        cases hp : ((AddMarkers.ctor now).run es).reach_pickup with
        | false =>
          rw [goalCallback_marker_en_route _ msg hp]
          exact ⟨rfl, rfl, rfl⟩
        | true =>
          have hd : ((AddMarkers.ctor now).run es).reach_dropoff = true := by rw [← hf, hp]
          rw [goalCallback_marker_at_dropoff _ msg hp hd]
          exact ⟨rfl, rfl, rfl⟩
      | odom msg =>
        rw [lastGoal_snoc_odom, goalReceived_append]
        simp only [AddMarkers.step, odomCallback_marker, odomCallback_goal]
        refine ⟨fun h => ih.1 ?_, ih.2⟩
        simpa [goalReceived] using h
  refine ⟨fun ha => key.1 ?_, key.2⟩
  have h1 := (inv_reachable now es).2
  cases hg : goalReceived es with
  | true => rfl
  | false =>
    rw [hg, ha] at h1
    simp only [Bool.false_eq_true, if_false] at h1
    exact absurd h1 Fp.one_ne_zero

end AddMarkersNode
